import Mathlib

/-!
Verification of the helper logic of the magicbricks Streamlit scripts.

The repository is a collection of Streamlit front-ends around HTTP calls to
LLM / SEO vendor APIs.  The parts amenable to formal treatment are the pure
helper functions (numbered-list parsing, HTTP-outcome branch logic, URL
parsing, language detection, temp-file cleanup).  Each of those is shallowly
embedded below, faithfully to `src/`:

* Python strings are modelled as `List Char` (wrapped in `String` at the
  boundaries); machine-level details (bytes vs code points) do not matter for
  any of the functions involved.
* Fallible HTTP calls are modelled by an explicit outcome datatype: either a
  raised exception (with its message) or a response carrying a status code and
  a body; the JSON body is modelled by an inductive `Json` type, with
  `Except String Json` standing for the result of `response.json()`.
* Python dictionary / list subscription errors (`KeyError`, `IndexError`,
  `TypeError`, `AttributeError`) are modelled by `Except PyErr`.
* External library primitives that the scripts merely call (`langdetect`,
  `json.loads`, percent-decoding inside `urllib.parse.unquote`, the regex
  classes `\w`/`\s`) are taken as parameters, so the theorems hold for every
  behaviour of those primitives.
-/

namespace MB

/-! ### Basic Python-string primitives (on `List Char`) -/

/-- Python `str.strip()` whitespace test (ASCII whitespace; the scripts only
strip ASCII content in the claims below). -/
def pyIsSpace (c : Char) : Bool :=
  c = ' ' || c = '\t' || c = '\n' || c = '\r' || c = '\x0b' || c = '\x0c'

/-- Strip a character class from both ends of a list (Python `str.strip`). -/
def stripBy (p : Char → Bool) (l : List Char) : List Char :=
  ((l.dropWhile p).reverse.dropWhile p).reverse

/-- Python `str.strip()` on a character list. -/
def stripL (l : List Char) : List Char := stripBy pyIsSpace l

/-- Python `str.strip()` on a `String`. -/
def pyStrip (s : String) : String := String.mk (stripL s.data)

/-- Does `p` occur at the head of `l` (Python `str.startswith`)? -/
def startsWithL : List Char → List Char → Bool
  | [], _ => true
  | _ :: _, [] => false
  | p :: ps, c :: cs => p = c && startsWithL ps cs

/-- Split at the first occurrence of `sep` in `l`: returns the part before and
the part after the separator (Python `s.split(sep, 1)` when `sep` occurs,
`s.find(sep)` style first match).  `none` when `sep` does not occur. -/
def firstCut (sep : List Char) : List Char → Option (List Char × List Char)
  | [] => if sep.isEmpty then some ([], []) else none
  | c :: cs =>
    if startsWithL sep (c :: cs) then some ([], (c :: cs).drop sep.length)
    else
      match firstCut sep cs with
      | some (a, b) => some (c :: a, b)
      | none => none

/-- Python `sep in s` (substring containment). -/
def occursL (sep l : List Char) : Bool := (firstCut sep l).isSome

/-- Python `pat in s` on `String`s. -/
def occursS (pat s : String) : Bool := occursL pat.data s.data

/-- Python `s.split(ch)` for a one-character separator. -/
def splitCharL (sep : Char) : List Char → List (List Char)
  | [] => [[]]
  | c :: cs =>
    if c = sep then [] :: splitCharL sep cs
    else
      match splitCharL sep cs with
      | [] => [[c]]
      | h :: t => (c :: h) :: t

/-- ASCII lowercasing, Python `str.lower()` on the ASCII range (all patterns
the scripts compare case-insensitively are ASCII). -/
def lowerAscii (l : List Char) : List Char := l.map Char.toLower

/-- Decimal digit character of `n % 10`. -/
def decDigit (n : Nat) : Char := Char.ofNat (48 + n % 10)

/-- Auxiliary accumulator form of decimal rendering; the first argument is
fuel bounding the number of digits, so the recursion is structural. -/
def decReprAux : Nat → Nat → List Char → List Char
  | 0, _, acc => acc
  | fuel + 1, n, acc =>
    if n = 0 then acc else decReprAux fuel (n / 10) (decDigit n :: acc)

/-- Python `str(i)` for a natural number (decimal rendering). -/
def decRepr (n : Nat) : List Char :=
  if n = 0 then ['0'] else decReprAux (n + 1) n []

/-! ### `dataresearcher.parse_output_to_list` (src/dataresearcher.py, lines 79-107)

The function splits the LLM response into numbered entries, strips the
numbering prefix, and drops entries carrying a "not found" / "no data
available" phrase. -/

/-- The numbering marker `f"{i}. "` tested by `parse_output_to_list`. -/
def natMarker (i : Nat) : List Char := decRepr i ++ ['.', ' ']

/-- Test of line 91: `any(line.startswith(f"{i}. ") for i in range(len(fields)))`. -/
def isMarkerLine (fields : List String) (l : List Char) : Bool :=
  (List.range fields.length).any (fun i => startsWithL (natMarker i) l)

/-- The entry-gathering loop of `parse_output_to_list` (lines 83-98): iterate
over the stripped nonempty lines, starting a new entry at each marker line and
appending continuation lines (separated by a space) to the current entry. -/
def gatherEntries (fields : List String) : List (List Char) → List Char → List (List Char)
  | [], cur => if cur.isEmpty then [] else [stripL cur]
  | l :: ls, cur =>
    if (stripL l).isEmpty then gatherEntries fields ls cur
    else if isMarkerLine fields (stripL l) then
      (if cur.isEmpty then [] else [stripL cur]) ++ gatherEntries fields ls (stripL l)
    else gatherEntries fields ls (cur ++ ' ' :: stripL l)

/-- Line 103: `entry.split(". ", 1)[1] if ". " in entry else entry`. -/
def cleanEntry (e : List Char) : List Char :=
  match firstCut ['.', ' '] e with
  | some (_, b) => b
  | none => e

/-- Line 105: `re.search(r"(not found|no data available)", entry, re.IGNORECASE)`. -/
def hasForbidden (e : List Char) : Bool :=
  occursL "not found".data (lowerAscii e) || occursL "no data available".data (lowerAscii e)

/-- Embedding of `parse_output_to_list(output, fields)`.  `none` stands for
Python `None`; `output.split("\n")` is the line split, and the final loop maps
`cleanEntry` over the gathered entries and keeps those without a forbidden
phrase. -/
def parse_output_to_list (output : Option String) (fields : List String) : List String :=
  match output with
  | none => []
  | some s =>
    if s.data.isEmpty then []
    else
      (((gatherEntries fields (splitCharL '\n' s.data) []).map cleanEntry).filter
        (fun e => !hasForbidden e)).map String.mk

example : parse_output_to_list (some "1. a\n2. b") ["A"] = ["a 2. b"] := by decide

example : parse_output_to_list (some "0. good\n1. not found here") ["A", "B"] = ["good"] := by
  decide

example : parse_output_to_list (some "0. x\n1. y") ["A", "B"] = ["x", "y"] := by decide

/-! ### Lemmas about the string primitives -/

theorem startsWithL_append_self (p x : List Char) : startsWithL p (p ++ x) = true := by
  induction p with
  | nil => rfl
  | cons c cs ih => simp [startsWithL, ih]

theorem splitCharL_of_not_mem {c : Char} {l : List Char} (h : c ∉ l) :
    splitCharL c l = [l] := by
  induction l with
  | nil => rfl
  | cons x xs ih =>
    have hxc : x ≠ c := by rintro rfl; exact h (List.mem_cons_self _ _)
    have hx : c ∉ xs := fun hm => h (List.mem_cons_of_mem _ hm)
    simp [splitCharL, hxc, ih hx]

theorem splitCharL_append {c : Char} {a : List Char} (h : c ∉ a) (b : List Char) :
    splitCharL c (a ++ c :: b) = a :: splitCharL c b := by
  induction a with
  | nil => simp [splitCharL]
  | cons x xs ih =>
    have hxc : x ≠ c := by rintro rfl; exact h (List.mem_cons_self _ _)
    have hx : c ∉ xs := fun hm => h (List.mem_cons_of_mem _ hm)
    simp [splitCharL, hxc, ih hx]

theorem firstCut_append {sep a : List Char} (hsep : sep ≠ [])
    (h : ∀ x ∈ a, x ≠ sep.head (by simpa using hsep)) (b : List Char) :
    firstCut sep (a ++ sep ++ b) = some (a, b) := by
  induction a with
  | nil =>
    cases sep with
    | nil => exact absurd rfl hsep
    | cons s ss =>
      have hsws : startsWithL (s :: ss) (s :: (ss ++ b)) = true := by
        have := startsWithL_append_self (s :: ss) b
        simpa using this
      show firstCut (s :: ss) (s :: (ss ++ b)) = some ([], b)
      simp only [firstCut, hsws, if_true]
      simp [List.drop_succ_cons, List.drop_left]
  | cons x xs ih =>
    cases sep with
    | nil => exact absurd rfl hsep
    | cons s ss =>
      have hxs : x ≠ s := by simpa using h x (List.mem_cons_self _ _)
      have hrest := ih (fun y hy => h y (List.mem_cons_of_mem _ hy))
      show firstCut (s :: ss) (x :: (xs ++ (s :: ss) ++ b)) = some (x :: xs, b)
      have hcond : startsWithL (s :: ss) (x :: (xs ++ (s :: ss) ++ b)) = false := by
        simp [startsWithL, Ne.symm hxs]
      simp only [firstCut, hcond, Bool.false_eq_true, if_false]
      rw [hrest]

/-! Facts about `stripL`. -/

theorem stripL_eq_of (p : Char → Bool) {l : List Char}
    (h1 : l.dropWhile p = l) (h2 : l.reverse.dropWhile p = l.reverse) :
    stripBy p l = l := by
  unfold stripBy
  rw [h1, h2, List.reverse_reverse]

theorem dropWhile_eq_self_of_strip {p : Char → Bool} {l : List Char}
    (h : stripBy p l = l) : l.dropWhile p = l := by
  have hsuff : l.dropWhile p <:+ l := List.dropWhile_suffix p
  have hlen1 : (stripBy p l).length ≤ (l.dropWhile p).length := by
    unfold stripBy
    calc ((((l.dropWhile p).reverse.dropWhile p)).reverse).length
        = ((l.dropWhile p).reverse.dropWhile p).length := by simp
      _ ≤ (l.dropWhile p).reverse.length := (List.dropWhile_suffix p).length_le
      _ = (l.dropWhile p).length := by simp
  rw [h] at hlen1
  exact hsuff.eq_of_length (Nat.le_antisymm hsuff.length_le hlen1)

theorem reverse_dropWhile_eq_self_of_strip {p : Char → Bool} {l : List Char}
    (h : stripBy p l = l) : l.reverse.dropWhile p = l.reverse := by
  have h1 := dropWhile_eq_self_of_strip h
  unfold stripBy at h
  rw [h1] at h
  have := congrArg List.reverse h
  simpa using this

theorem head_not_of_dropWhile {p : Char → Bool} {c : Char} {t : List Char}
    (h : (c :: t).dropWhile p = c :: t) : p c = false := by
  by_contra hb
  have hc : p c = true := by revert hb; cases p c <;> simp
  rw [List.dropWhile_cons_of_pos hc] at h
  have := congrArg List.length h
  have hle : (t.dropWhile p).length ≤ t.length := (List.dropWhile_suffix p).length_le
  simp at this
  omega

theorem dropWhile_cons_self {p : Char → Bool} {c : Char} (hc : p c = false)
    (t : List Char) : (c :: t).dropWhile p = c :: t :=
  List.dropWhile_cons_of_neg (by simp [hc])

/-- Concatenating two stripped nonempty strings with a space between them
yields a stripped string. -/
theorem stripL_join {a b : List Char} (ha : stripL a = a) (hna : a ≠ [])
    (hb : stripL b = b) (hnb : b ≠ []) : stripL (a ++ ' ' :: b) = a ++ ' ' :: b := by
  apply stripL_eq_of
  · obtain ⟨c, t, rfl⟩ := List.exists_cons_of_ne_nil hna
    have hc : pyIsSpace c = false := head_not_of_dropWhile (dropWhile_eq_self_of_strip ha)
    simpa using dropWhile_cons_self hc (t ++ ' ' :: b)
  · obtain ⟨c, t, hbrev⟩ := List.exists_cons_of_ne_nil (l := b.reverse) (by simpa using hnb)
    have hrev : b.reverse.dropWhile pyIsSpace = b.reverse := reverse_dropWhile_eq_self_of_strip hb
    rw [hbrev] at hrev
    have hc : pyIsSpace c = false := head_not_of_dropWhile hrev
    have hform : (a ++ ' ' :: b).reverse = c :: (t ++ ' ' :: a.reverse) := by
      rw [List.reverse_append, List.reverse_cons, hbrev]
      simp
    rw [hform, dropWhile_cons_self hc, ← hform]

/-! Facts about `decRepr`: it is nonempty and consists of decimal digits. -/

/-- Decimal-digit character test (codepoints 48-57). -/
def isDigitC (c : Char) : Bool := decide (48 ≤ c.toNat) && decide (c.toNat ≤ 57)

theorem decDigit_digit (n : Nat) : isDigitC (decDigit n) = true := by
  have h : n % 10 < 10 := Nat.mod_lt _ (by omega)
  unfold decDigit
  set k := n % 10 with hk
  interval_cases k <;> decide

theorem decReprAux_digits (fuel : Nat) :
    ∀ n acc, (∀ c ∈ acc, isDigitC c = true) → ∀ c ∈ decReprAux fuel n acc, isDigitC c = true := by
  induction fuel with
  | zero => intro n acc hacc c hc; exact hacc c hc
  | succ f ih =>
    intro n acc hacc c hc
    unfold decReprAux at hc
    by_cases hn : n = 0
    · rw [if_pos hn] at hc; exact hacc c hc
    · rw [if_neg hn] at hc
      refine ih _ _ ?_ c hc
      intro d hd
      rcases List.mem_cons.mp hd with h | h
      · subst h; exact decDigit_digit n
      · exact hacc d h

theorem decRepr_digits {n : Nat} : ∀ c ∈ decRepr n, isDigitC c = true := by
  intro c hc
  unfold decRepr at hc
  by_cases hn : n = 0
  · rw [if_pos hn] at hc; simp at hc; subst hc; decide
  · rw [if_neg hn] at hc
    exact decReprAux_digits _ _ _ (by intro d hd; simp at hd) c hc

theorem decReprAux_suffix (fuel : Nat) :
    ∀ n acc, ∃ ds, decReprAux fuel n acc = ds ++ acc := by
  induction fuel with
  | zero => intro n acc; exact ⟨[], rfl⟩
  | succ f ih =>
    intro n acc
    unfold decReprAux
    by_cases hn : n = 0
    · rw [if_pos hn]; exact ⟨[], rfl⟩
    · rw [if_neg hn]
      obtain ⟨ds, hds⟩ := ih (n / 10) (decDigit n :: acc)
      exact ⟨ds ++ [decDigit n], by rw [hds]; simp⟩

theorem decRepr_ne_nil (n : Nat) : decRepr n ≠ [] := by
  unfold decRepr
  by_cases hn : n = 0
  · rw [if_pos hn]; simp
  · rw [if_neg hn]
    unfold decReprAux
    rw [if_neg hn]
    obtain ⟨ds, hds⟩ := decReprAux_suffix n (n / 10) [decDigit n]
    rw [hds]
    simp

theorem digit_not_space {c : Char} (h : isDigitC c = true) : pyIsSpace c = false := by
  unfold isDigitC at h
  rw [Bool.and_eq_true, decide_eq_true_eq, decide_eq_true_eq] at h
  obtain ⟨hlo, hhi⟩ := h
  simp only [pyIsSpace, Bool.or_eq_false_iff, decide_eq_false_iff_not]
  refine ⟨⟨⟨⟨⟨?_, ?_⟩, ?_⟩, ?_⟩, ?_⟩, ?_⟩ <;>
    · intro he
      subst he
      revert hlo hhi
      decide

theorem digit_ne_dot {c : Char} (h : isDigitC c = true) : c ≠ '.' := by
  intro he
  subst he
  revert h
  decide

theorem not_true_of {b : Bool} (h : (!b) = true) : b = false := by
  cases b
  · rfl
  · simp at h

/-! ### Structured numbered-list inputs for the amended C1 claim -/

/-- One numbered item of an LLM response: its list index, the text on the
marker line after the `"i. "` marker, and its continuation lines. -/
structure NumItem where
  idx : Nat
  headText : List Char
  cont : List (List Char)

/-- The marker line of a numbered item, `"{idx}. {headText}"`. -/
def headLineOf (it : NumItem) : List Char := decRepr it.idx ++ '.' :: ' ' :: it.headText

/-- All lines of a numbered item (marker line, then continuation lines). -/
def itemLinesOf (it : NumItem) : List (List Char) := headLineOf it :: it.cont

/-- Join a head string with follow-up strings, one space between each (the
`current_entry += " " + line` accumulation of the source). -/
def joinSp : List Char → List (List Char) → List Char
  | h, [] => h
  | h, c :: cs => joinSp (h ++ ' ' :: c) cs

/-- The cleaned text of an item: head text with continuations appended. -/
def itemTextOf (it : NumItem) : List Char := joinSp it.headText it.cont

/-- The raw (uncleaned) entry the gathering loop accumulates for an item. -/
def rawEntryOf (it : NumItem) : List Char := joinSp (headLineOf it) it.cont

/-- Join lines with newline characters (inverse of the line split). -/
def joinLinesL : List (List Char) → List Char
  | [] => []
  | [l] => l
  | l :: l2 :: ls => l ++ '\n' :: joinLinesL (l2 :: ls)

/-- Render a list of numbered items as a response text. -/
def renderItems (items : List NumItem) : String :=
  String.mk (joinLinesL (items.map itemLinesOf).flatten)

/-- A line is well-formed when it is already stripped, nonempty, and contains
no embedded newline. -/
def wfLineB (l : List Char) : Bool :=
  decide (stripL l = l) && !l.isEmpty && decide ('\n' ∉ l)

/-- A numbered item is well-formed for a field list when its index addresses a
requested field, its marker line is well-formed, and its continuation lines
are well-formed non-marker lines. -/
def wfItemB (fields : List String) (it : NumItem) : Bool :=
  decide (it.idx < fields.length) && wfLineB (headLineOf it) &&
    it.cont.all (fun c => wfLineB c && !isMarkerLine fields c)

theorem isMarkerLine_headLine {fields : List String} {it : NumItem}
    (h : it.idx < fields.length) : isMarkerLine fields (headLineOf it) = true := by
  unfold isMarkerLine
  rw [List.any_eq_true]
  refine ⟨it.idx, List.mem_range.mpr h, ?_⟩
  unfold headLineOf natMarker
  have : decRepr it.idx ++ '.' :: ' ' :: it.headText
      = (decRepr it.idx ++ ['.', ' ']) ++ it.headText := by simp
  rw [this]
  exact startsWithL_append_self _ _

theorem stripL_joinSp {h : List Char} (hs : stripL h = h) (hn : h ≠ [])
    {cs : List (List Char)} (hcs : ∀ c ∈ cs, stripL c = c ∧ c ≠ []) :
    stripL (joinSp h cs) = joinSp h cs ∧ joinSp h cs ≠ [] := by
  induction cs generalizing h with
  | nil => exact ⟨hs, hn⟩
  | cons c cs ih =>
    obtain ⟨hc1, hc2⟩ := hcs c (List.mem_cons_self _ _)
    have hs2 : stripL (h ++ ' ' :: c) = h ++ ' ' :: c := stripL_join hs hn hc1 hc2
    have hn2 : h ++ ' ' :: c ≠ [] := by simp
    exact ih hs2 hn2 (fun d hd => hcs d (List.mem_cons_of_mem _ hd))

theorem wfLineB_strip {l : List Char} (h : wfLineB l = true) : stripL l = l := by
  unfold wfLineB at h
  rw [Bool.and_eq_true, Bool.and_eq_true] at h
  exact of_decide_eq_true h.1.1

theorem wfLineB_ne_nil {l : List Char} (h : wfLineB l = true) : l ≠ [] := by
  unfold wfLineB at h
  rw [Bool.and_eq_true, Bool.and_eq_true] at h
  have := not_true_of h.1.2
  intro he
  subst he
  simp at this

theorem wfLineB_no_newline {l : List Char} (h : wfLineB l = true) : '\n' ∉ l := by
  unfold wfLineB at h
  rw [Bool.and_eq_true] at h
  exact of_decide_eq_true h.2

/-- Consuming well-formed continuation lines extends the current entry. -/
theorem gatherEntries_cont (fields : List String) {cs : List (List Char)}
    (hcs : ∀ c ∈ cs, stripL c = c ∧ c ≠ [] ∧ isMarkerLine fields c = false)
    (rest : List (List Char)) (cur : List Char) :
    gatherEntries fields (cs ++ rest) cur = gatherEntries fields rest (joinSp cur cs) := by
  induction cs generalizing cur with
  | nil => rfl
  | cons c cs ih =>
    obtain ⟨hc1, hc2, hc3⟩ := hcs c (List.mem_cons_self _ _)
    show gatherEntries fields (c :: (cs ++ rest)) cur = _
    rw [gatherEntries, hc1]
    rw [if_neg (by simpa using hc2), if_neg (by simp [hc3])]
    exact ih (fun d hd => hcs d (List.mem_cons_of_mem _ hd)) _

/-- The gathering loop turns the rendered lines of well-formed items into one
raw entry per item, flushing any current entry first. -/
theorem gatherEntries_items {fields : List String} {items : List NumItem}
    (hwf : ∀ it ∈ items, wfItemB fields it = true) :
    ∀ cur, cur = [] ∨ (stripL cur = cur ∧ cur ≠ []) →
    gatherEntries fields (items.map itemLinesOf).flatten cur =
      (if cur.isEmpty then [] else [stripL cur]) ++ items.map rawEntryOf := by
  induction items with
  | nil =>
    intro cur _
    simp [gatherEntries]
  | cons it items ih =>
    intro cur _
    have hwfit := hwf it (List.mem_cons_self _ _)
    rw [wfItemB, Bool.and_eq_true, Bool.and_eq_true] at hwfit
    obtain ⟨⟨hidx0, hhead⟩, hcont⟩ := hwfit
    have hidx : it.idx < fields.length := of_decide_eq_true hidx0
    have hh1 : stripL (headLineOf it) = headLineOf it := wfLineB_strip hhead
    have hh2 : headLineOf it ≠ [] := wfLineB_ne_nil hhead
    have hmark : isMarkerLine fields (headLineOf it) = true := isMarkerLine_headLine hidx
    have hcont' : ∀ c ∈ it.cont, stripL c = c ∧ c ≠ [] ∧ isMarkerLine fields c = false := by
      intro c hc
      have h2 := (List.all_eq_true.mp hcont) c hc
      rw [Bool.and_eq_true] at h2
      exact ⟨wfLineB_strip h2.1, wfLineB_ne_nil h2.1, not_true_of h2.2⟩
    have hstep : ((it :: items).map itemLinesOf).flatten
        = headLineOf it :: (it.cont ++ (items.map itemLinesOf).flatten) := by
      simp [itemLinesOf]
    rw [hstep, gatherEntries, hh1]
    rw [if_neg (by simpa using hh2), if_pos hmark]
    rw [gatherEntries_cont fields hcont' _ _]
    have hinv := stripL_joinSp hh1 hh2 (fun c hc => ⟨(hcont' c hc).1, (hcont' c hc).2.1⟩)
    have hrecur := ih (fun it2 hit => hwf it2 (List.mem_cons_of_mem _ hit))
      (joinSp (headLineOf it) it.cont) (Or.inr hinv)
    rw [hrecur]
    have hne : (joinSp (headLineOf it) it.cont).isEmpty = false := by
      simpa using hinv.2
    rw [hne]
    simp only [Bool.false_eq_true, if_false, hinv.1]
    simp [rawEntryOf]

theorem joinSp_append (a x : List Char) (cs : List (List Char)) :
    joinSp (a ++ x) cs = a ++ joinSp x cs := by
  induction cs generalizing x with
  | nil => rfl
  | cons c cs ih =>
    show joinSp ((a ++ x) ++ ' ' :: c) cs = _
    rw [List.append_assoc]
    exact ih (x ++ ' ' :: c)

/-- Stripping the numbering prefix from a raw entry leaves the item text. -/
theorem cleanEntry_rawEntry (it : NumItem) : cleanEntry (rawEntryOf it) = itemTextOf it := by
  have hdec : rawEntryOf it = decRepr it.idx ++ ['.', ' '] ++ itemTextOf it := by
    unfold rawEntryOf headLineOf itemTextOf
    rw [show decRepr it.idx ++ '.' :: ' ' :: it.headText
        = (decRepr it.idx ++ ['.', ' ']) ++ it.headText by simp]
    rw [joinSp_append]
  have hdigits : ∀ x ∈ decRepr it.idx, x ≠ (['.', ' '] : List Char).head (by simp) := by
    intro x hx
    exact digit_ne_dot (decRepr_digits x hx)
  unfold cleanEntry
  rw [hdec, firstCut_append (by simp) hdigits (itemTextOf it)]

theorem joinLinesL_ne_nil {l : List Char} {ls : List (List Char)} (h : l ≠ []) :
    joinLinesL (l :: ls) ≠ [] := by
  cases ls with
  | nil => exact h
  | cons l2 ls => simp [joinLinesL]

theorem splitCharL_joinLinesL {L : List (List Char)} (hne : L ≠ [])
    (h : ∀ l ∈ L, '\n' ∉ l) : splitCharL '\n' (joinLinesL L) = L := by
  induction L with
  | nil => exact absurd rfl hne
  | cons l ls ih =>
    cases ls with
    | nil => exact splitCharL_of_not_mem (h l (List.mem_cons_self _ _))
    | cons l2 ls2 =>
      show splitCharL '\n' (l ++ '\n' :: joinLinesL (l2 :: ls2)) = _
      rw [splitCharL_append (h l (List.mem_cons_self _ _))]
      rw [ih (by simp) (fun x hx => h x (List.mem_cons_of_mem _ hx))]

/-- C1, corrected.  For every response text built from well-formed numbered
items whose indices address the requested fields, `parse_output_to_list`
returns one cleaned entry per item (numbering prefix stripped, continuation
lines appended) with forbidden-phrase entries dropped. -/
theorem C1_parse_numbered_items (fields : List String) (items : List NumItem)
    (hf : fields ≠ []) (hwf : ∀ it ∈ items, wfItemB fields it = true) :
    parse_output_to_list (some (renderItems items)) fields =
      ((items.map itemTextOf).filter (fun t => !hasForbidden t)).map String.mk := by
  clear hf
  cases items with
  | nil => rfl
  | cons it0 rest =>
    have hwf0 := hwf it0 (List.mem_cons_self _ _)
    rw [wfItemB, Bool.and_eq_true, Bool.and_eq_true] at hwf0
    have hh2 : headLineOf it0 ≠ [] := wfLineB_ne_nil hwf0.1.2
    have hL : ((it0 :: rest).map itemLinesOf).flatten
        = headLineOf it0 :: (it0.cont ++ (rest.map itemLinesOf).flatten) := by
      simp [itemLinesOf]
    have hjoin_ne : joinLinesL ((it0 :: rest).map itemLinesOf).flatten ≠ [] := by
      rw [hL]
      exact joinLinesL_ne_nil hh2
    have hnolf : ∀ l ∈ ((it0 :: rest).map itemLinesOf).flatten, '\n' ∉ l := by
      intro l hl
      rw [List.mem_flatten] at hl
      obtain ⟨block, hblock, hlb⟩ := hl
      rw [List.mem_map] at hblock
      obtain ⟨it, hit, rfl⟩ := hblock
      have hwfit := hwf it hit
      rw [wfItemB, Bool.and_eq_true, Bool.and_eq_true] at hwfit
      rcases List.mem_cons.mp hlb with rfl | hlc
      · exact wfLineB_no_newline hwfit.1.2
      · have h2 := (List.all_eq_true.mp hwfit.2) l hlc
        rw [Bool.and_eq_true] at h2
        exact wfLineB_no_newline h2.1
    have hempty : (joinLinesL ((it0 :: rest).map itemLinesOf).flatten).isEmpty = false := by
      simpa using hjoin_ne
    have hdata : (renderItems (it0 :: rest)).data
        = joinLinesL ((it0 :: rest).map itemLinesOf).flatten := rfl
    show (if (renderItems (it0 :: rest)).data.isEmpty = true then []
      else (((gatherEntries fields (splitCharL '\n' (renderItems (it0 :: rest)).data) []).map
        cleanEntry).filter (fun e => !hasForbidden e)).map String.mk) = _
    rw [hdata, hempty]
    simp only [Bool.false_eq_true, if_false]
    rw [splitCharL_joinLinesL (by rw [hL]; simp) hnolf]
    rw [gatherEntries_items hwf [] (Or.inl rfl)]
    have hmaps : ((it0 :: rest).map rawEntryOf).map cleanEntry
        = (it0 :: rest).map itemTextOf := by
      rw [List.map_map]
      exact List.map_congr_left (fun it _ => cleanEntry_rawEntry it)
    simp only [List.isEmpty_nil, if_true, List.nil_append, hmaps]

/-- C1 counterexample.  The claim says the text is split at every line that
begins with "a number followed by `'. '`".  The code only tests the numbers
`0 .. len(fields)-1` (line 91, `range(len(fields))`), so with one requested
field the lines `"1. a"` and `"2. b"` are not markers: both collapse into a
single entry `"a 2. b"` instead of the claimed two entries `["a", "b"]`. -/
theorem C1_counterexample :
    parse_output_to_list (some "1. a\n2. b") ["A"] = ["a 2. b"] ∧
      (["a 2. b"] : List String) ≠ ["a", "b"] :=
  ⟨by decide, by decide⟩

/-- Witness items for the corrected C1 statement: two numbered items (indices
0 and 1), the first with a continuation line, the second carrying a forbidden
phrase. -/
def c1Items : List NumItem :=
  [⟨0, "good".data, ["more".data]⟩, ⟨1, "not found".data, []⟩]

/-- C1 witness: `C1_parse_numbered_items` applied at a concrete response. -/
theorem C1_parse_numbered_items_witness :
    parse_output_to_list (some (renderItems c1Items)) ["A", "B"] = ["good more"] := by
  rw [C1_parse_numbered_items ["A", "B"] c1Items (by decide) (by decide)]
  decide

/-- C8: every entry returned by `parse_output_to_list` is free of the phrases
"not found" and "no data available" under (ASCII) case-insensitive matching —
any parsed entry containing either phrase is dropped (line 105) — and a `None`
or empty input yields the empty list (lines 80-81). -/
theorem C8_parse_entries_clean :
    (∀ fields, parse_output_to_list none fields = []
      ∧ parse_output_to_list (some "") fields = []) ∧
    ∀ output fields e, e ∈ parse_output_to_list output fields → hasForbidden e.data = false := by
  refine ⟨fun fields => ⟨rfl, rfl⟩, ?_⟩
  intro output fields e he
  match output with
  | none => simp [parse_output_to_list] at he
  | some s =>
    rw [show parse_output_to_list (some s) fields = (if s.data.isEmpty = true then [] else
      (((gatherEntries fields (splitCharL '\n' s.data) []).map cleanEntry).filter
        (fun e => !hasForbidden e)).map String.mk) from rfl] at he
    by_cases hs : s.data.isEmpty = true
    · rw [if_pos hs] at he
      simp at he
    · rw [if_neg hs] at he
      rw [List.mem_map] at he
      obtain ⟨l, hl, rfl⟩ := he
      have hfl := List.of_mem_filter hl
      simpa using hfl

/-- C8 witness: `C8_parse_entries_clean` applied at a concrete response whose
surviving entry is `"good"`. -/
theorem C8_parse_entries_clean_witness : hasForbidden ("good" : String).data = false :=
  C8_parse_entries_clean.2 (some "0. good\n1. not found x") ["A", "B"] "good" (by decide)

/-! ### JSON values and Python subscription semantics

The response bodies of the vendor APIs are untyped JSON.  Python raises
`KeyError` / `IndexError` / `TypeError` / `AttributeError` on bad
subscriptions; the accessors below mirror those semantics. -/

inductive Json where
  | null
  | bool (b : Bool)
  | num (n : Int)
  | str (s : String)
  | arr (xs : List Json)
  | obj (kvs : List (String × Json))

inductive PyErr where
  | keyError (k : String)
  | indexError
  | typeError
  | attrError
  | jsonError (msg : String)
  deriving DecidableEq

/-- Python `str(e)` of the modelled exceptions (the scripts only interpolate
these into user-facing messages). -/
def pyErrStr : PyErr → String
  | .keyError k => "'" ++ k ++ "'"
  | .indexError => "list index out of range"
  | .typeError => "TypeError"
  | .attrError => "AttributeError"
  | .jsonError m => m

/-- Python `d[k]` for a string key: object lookup, `TypeError` otherwise. -/
def Json.getKey : Json → String → Except PyErr Json
  | .obj kvs, k =>
    match kvs.lookup k with
    | some v => .ok v
    | none => .error (.keyError k)
  | _, _ => .error .typeError

/-- Python `x[i]` for an integer index: list/string indexing (`IndexError`
out of range), `KeyError` on a dict, `TypeError` otherwise. -/
def Json.getIdx : Json → Nat → Except PyErr Json
  | .arr xs, i =>
    match xs.get? i with
    | some v => .ok v
    | none => .error .indexError
  | .str s, i =>
    match s.data.get? i with
    | some c => .ok (.str (String.mk [c]))
    | none => .error .indexError
  | .obj _, i => .error (.keyError (String.mk (decRepr i)))
  | _, _ => .error .typeError

/-- Python `k in d` for a string `k`: key membership on a dict, element
membership on a list, substring test on a string, `TypeError` otherwise. -/
def Json.hasKey : Json → String → Except PyErr Bool
  | .obj kvs, k => .ok (kvs.any (fun kv => kv.1 == k))
  | .arr xs, k => .ok (xs.any (fun x => match x with | .str s => s == k | _ => false))
  | .str s, k => .ok (occursS k s)
  | _, _ => .error .typeError

/-- Python `len(x)`. -/
def Json.lenE : Json → Except PyErr Nat
  | .obj kvs => .ok kvs.length
  | .arr xs => .ok xs.length
  | .str s => .ok s.data.length
  | _ => .error .typeError

/-- Python `.strip()` receiver check: a `str` value, `AttributeError`
otherwise. -/
def Json.asStr : Json → Except PyErr String
  | .str s => .ok s
  | _ => .error .attrError

/-! ### `dataresearcher.call_perplexity_chat` / `call_grok_chat` (lines 11-76)

Both functions are identically shaped: POST, check the status, extract
`result["choices"][0]["message"]["content"].strip()`, catch every exception.
The embedding is parametric in the message strings. -/

/-- The outcome of one `requests.post(...)` evaluation: either the call (or
any later statement) raised, or a response with status, raw text, and the
result of `response.json()` (`Except.error` = decode exception message). -/
structure HttpResp where
  status : Nat
  text : String
  jsonBody : Except String Json

inductive CallOutcome where
  | exc (msg : String)
  | resp (r : HttpResp)

structure ApiNames where
  errLabel : String
  excLabel : String
  noContent : String

/-- The tail `c0["message"]["content"]` of the extraction chain, followed by
the `.strip()` receiver check. -/
def tailChain (c0 : Json) : Except PyErr String :=
  match c0.getKey "message" with
  | .error e => .error e
  | .ok msg =>
    match msg.getKey "content" with
    | .error e => .error e
    | .ok content => content.asStr

/-- Lines 36-39 (and 71-74): the guarded content extraction inside the `try`
block; any `Except.error` models a raised exception caught by line 40. -/
def chatExtract (names : ApiNames) (result : Json) :
    Except PyErr (Option String × Option String) :=
  match result.hasKey "choices" with
  | .error e => .error e
  | .ok has =>
    if has then
      match result.getKey "choices" with
      | .error e => .error e
      | .ok choices =>
        match choices.lenE with
        | .error e => .error e
        | .ok n =>
          if 0 < n then
            match choices.getIdx 0 with
            | .error e => .error e
            | .ok c0 =>
              match tailChain c0 with
              | .error e => .error e
              | .ok s => .ok (some (pyStrip s), none)
          else .ok (none, some names.noContent)
    else .ok (none, some names.noContent)

/-- Embedding of the whole chat-call function body (lines 31-41 / 66-76):
non-200 statuses return an API-error pair, JSON-decode and extraction
exceptions return an exception pair, success returns `(content, None)`. -/
def chatCall (names : ApiNames) (o : CallOutcome) : Option String × Option String :=
  match o with
  | .exc m => (none, some (names.excLabel ++ m))
  | .resp r =>
    if r.status ≠ 200 then
      (none, some (names.errLabel ++ String.mk (decRepr r.status) ++ ": " ++ r.text))
    else
      match r.jsonBody with
      | .error m => (none, some (names.excLabel ++ m))
      | .ok result =>
        match chatExtract names result with
        | .ok pair => pair
        | .error e => (none, some (names.excLabel ++ pyErrStr e))

def perplexityNames : ApiNames :=
  ⟨"Perplexity API Error ", "Perplexity Exception: ", "Perplexity returned no usable content."⟩

def grokNames : ApiNames :=
  ⟨"Grok API Error ", "Grok Exception: ", "Grok returned no usable content."⟩

def call_perplexity_chat (o : CallOutcome) : Option String × Option String :=
  chatCall perplexityNames o

def call_grok_chat (o : CallOutcome) : Option String × Option String :=
  chatCall grokNames o

/-- The plain extraction `result["choices"][0]["message"]["content"]` followed
by `.strip()`'s receiver check, with no membership or length gate.  Stated
independently of `chatExtract` to characterise when the call succeeds. -/
def contentOf (j : Json) : Except PyErr String :=
  match j.getKey "choices" with
  | .error e => .error e
  | .ok choices =>
    match choices.getIdx 0 with
    | .error e => .error e
    | .ok c0 => tailChain c0

/-- Gated and ungated extraction agree on success; on failure the gated
extraction yields either an exception or the no-content pair. -/
theorem chatExtract_rel (names : ApiNames) (j : Json) :
    (∃ s, contentOf j = .ok s ∧ chatExtract names j = .ok (some (pyStrip s), none)) ∨
    ((∃ e, contentOf j = .error e) ∧
      ((∃ e2, chatExtract names j = .error e2) ∨
        chatExtract names j = .ok (none, some names.noContent))) := by
  cases j with
  | null => exact Or.inr ⟨⟨.typeError, rfl⟩, Or.inl ⟨.typeError, rfl⟩⟩
  | bool b => exact Or.inr ⟨⟨.typeError, rfl⟩, Or.inl ⟨.typeError, rfl⟩⟩
  | num n => exact Or.inr ⟨⟨.typeError, rfl⟩, Or.inl ⟨.typeError, rfl⟩⟩
  | str s =>
    refine Or.inr ⟨⟨.typeError, rfl⟩, ?_⟩
    by_cases hocc : occursS "choices" s = true
    · exact Or.inl ⟨.typeError, by simp [chatExtract, Json.hasKey, hocc, Json.getKey]⟩
    · have hocc2 : occursS "choices" s = false := by simpa using hocc
      exact Or.inr (by simp [chatExtract, Json.hasKey, hocc2])
  | arr xs =>
    refine Or.inr ⟨⟨.typeError, rfl⟩, ?_⟩
    by_cases hmem : (xs.any (fun x => match x with | .str s => s == "choices" | _ => false)) = true
    · exact Or.inl ⟨.typeError, by simp [chatExtract, Json.hasKey, hmem, Json.getKey]⟩
    · have hmem2 : (xs.any (fun x => match x with | .str s => s == "choices" | _ => false))
          = false := by simpa using hmem
      exact Or.inr (by simp [chatExtract, Json.hasKey, hmem2])
  | obj kvs =>
    have hlookup : (kvs.any (fun kv => kv.1 == "choices")) = (kvs.lookup "choices").isSome := by
      induction kvs with
      | nil => rfl
      | cons kv rest ih =>
        by_cases hk : kv.1 = "choices"
        · simp [List.lookup, hk]
        · have hk1 : (kv.1 == "choices") = false := by simpa using hk
          have hk2 : ("choices" == kv.1) = false := by
            simpa using (Ne.symm hk)
          simp [List.lookup, hk1, hk2, ih]
    match hl : kvs.lookup "choices" with
    | none =>
      rw [hl] at hlookup
      simp only [Option.isSome_none] at hlookup
      refine Or.inr ⟨⟨.keyError "choices", ?_⟩, Or.inr ?_⟩
      · simp [contentOf, Json.getKey, hl]
      · simp [chatExtract, Json.hasKey, hlookup]
    | some v =>
      rw [hl] at hlookup
      simp only [Option.isSome_some] at hlookup
      have hcont : contentOf (Json.obj kvs) =
          (match v.getIdx 0 with
           | .error e => .error e
           | .ok c0 => tailChain c0) := by
        simp [contentOf, Json.getKey, hl]
      have hext : chatExtract names (Json.obj kvs) =
          (match v.lenE with
           | .error e => .error e
           | .ok n =>
             if 0 < n then
               match v.getIdx 0 with
               | .error e => .error e
               | .ok c0 =>
                 match tailChain c0 with
                 | .error e => .error e
                 | .ok s => .ok (some (pyStrip s), none)
             else .ok (none, some names.noContent)) := by
        simp [chatExtract, Json.hasKey, hlookup, Json.getKey, hl]
      rw [hcont, hext]
      cases v with
      | null => exact Or.inr ⟨⟨.typeError, rfl⟩, Or.inl ⟨.typeError, rfl⟩⟩
      | bool b => exact Or.inr ⟨⟨.typeError, rfl⟩, Or.inl ⟨.typeError, rfl⟩⟩
      | num n => exact Or.inr ⟨⟨.typeError, rfl⟩, Or.inl ⟨.typeError, rfl⟩⟩
      | obj kvs2 =>
        refine Or.inr ⟨⟨.keyError (String.mk (decRepr 0)), rfl⟩, ?_⟩
        cases kvs2 with
        | nil => exact Or.inr rfl
        | cons a l =>
          refine Or.inl ⟨.keyError (String.mk (decRepr 0)), ?_⟩
          simp [Json.lenE, Json.getIdx]
      | str s =>
        cases hs : s.data with
        | nil =>
          refine Or.inr ⟨⟨.indexError, ?_⟩, Or.inr ?_⟩
          · simp [Json.getIdx, hs]
          · simp [Json.lenE, hs]
        | cons c cs =>
          refine Or.inr ⟨⟨.typeError, ?_⟩, Or.inl ⟨.typeError, ?_⟩⟩
          · simp [Json.getIdx, hs, tailChain, Json.getKey]
          · simp [Json.lenE, hs, Json.getIdx, tailChain, Json.getKey]
      | arr ys =>
        cases ys with
        | nil => exact Or.inr ⟨⟨.indexError, rfl⟩, Or.inr rfl⟩
        | cons y ys2 =>
          have hidx : (Json.arr (y :: ys2)).getIdx 0 = .ok y := rfl
          have hlen : (Json.arr (y :: ys2)).lenE = .ok (ys2.length + 1) := rfl
          rw [hidx, hlen]
          cases ht : tailChain y with
          | ok s =>
            refine Or.inl ⟨s, ?_, ?_⟩
            · simpa using ht
            · simp [ht]
          | error e =>
            refine Or.inr ⟨⟨e, ?_⟩, Or.inl ⟨e, ?_⟩⟩
            · simpa using ht
            · simp [ht]

/-- The exact condition under which a chat call yields content: HTTP 200, a
decodable JSON body, and a successful `choices[0].message.content` string
extraction. -/
def chatSuccess (o : CallOutcome) : Prop :=
  ∃ r j s, o = .resp r ∧ r.status = 200 ∧ r.jsonBody = .ok j ∧ contentOf j = .ok s

/-- Full characterisation of `chatCall`: content is returned exactly on
`chatSuccess`, an error string exactly otherwise, and on success the content
is the stripped extracted string. -/
theorem chatCall_spec (names : ApiNames) (o : CallOutcome) :
    ((chatCall names o).1.isSome ↔ chatSuccess o) ∧
    ((chatCall names o).2.isSome ↔ ¬ chatSuccess o) ∧
    ∀ r j s, o = .resp r → r.status = 200 → r.jsonBody = .ok j → contentOf j = .ok s →
      chatCall names o = (some (pyStrip s), none) := by
  cases o with
  | exc m =>
    have hns : ¬ chatSuccess (.exc m) := by
      rintro ⟨r, j, s, h, -⟩
      exact CallOutcome.noConfusion h
    refine ⟨by simp [chatCall, hns], by simp [chatCall, hns], ?_⟩
    intro r j s h
    exact absurd h (fun hh => CallOutcome.noConfusion hh)
  | resp r =>
    by_cases hst : r.status = 200
    · match hjb : r.jsonBody with
      | .error m =>
        have hns : ¬ chatSuccess (.resp r) := by
          rintro ⟨r2, j, s, heq, h200, hok, hc⟩
          injection heq with h2
          subst h2
          rw [hjb] at hok
          exact Except.noConfusion hok
        have hcc : chatCall names (.resp r) = (none, some (names.excLabel ++ m)) := by
          simp [chatCall, hst, hjb]
        refine ⟨by simp [hcc, hns], by simp [hcc, hns], ?_⟩
        intro r2 j s heq h200 hok hc
        injection heq with h2
        subst h2
        rw [hjb] at hok
        exact Except.noConfusion hok
      | .ok result =>
        rcases chatExtract_rel names result with ⟨s, hcs, hes⟩ | ⟨⟨e, hce⟩, herr⟩
        · have hcc : chatCall names (.resp r) = (some (pyStrip s), none) := by
            simp [chatCall, hst, hjb, hes]
          have hs : chatSuccess (.resp r) := ⟨r, result, s, rfl, hst, hjb, hcs⟩
          refine ⟨by simp [hcc, hs], by simp [hcc, hs], ?_⟩
          intro r2 j s2 heq h200 hok hc
          injection heq with h2
          subst h2
          rw [hjb] at hok
          injection hok with h3
          subst h3
          rw [hcs] at hc
          injection hc with h4
          subst h4
          exact hcc
        · have hns : ¬ chatSuccess (.resp r) := by
            rintro ⟨r2, j, s, heq, h200, hok, hc⟩
            injection heq with h2
            subst h2
            rw [hjb] at hok
            injection hok with h3
            subst h3
            rw [hce] at hc
            exact Except.noConfusion hc
          have hfst : (chatCall names (.resp r)).1 = none := by
            rcases herr with ⟨e2, he2⟩ | hnc
            · simp [chatCall, hst, hjb, he2]
            · simp [chatCall, hst, hjb, hnc]
          have hsnd : (chatCall names (.resp r)).2.isSome = true := by
            rcases herr with ⟨e2, he2⟩ | hnc
            · simp [chatCall, hst, hjb, he2]
            · simp [chatCall, hst, hjb, hnc]
          refine ⟨by simp [hfst, hns], by simp [hsnd, hns], ?_⟩
          intro r2 j s heq h200 hok hc
          exact absurd ⟨r2, j, s, heq, h200, hok, hc⟩ hns
    · have hns : ¬ chatSuccess (.resp r) := by
        rintro ⟨r2, j, s, heq, h200, -⟩
        injection heq with h2
        subst h2
        exact hst h200
      have hcc : chatCall names (.resp r)
          = (none, some (names.errLabel ++ String.mk (decRepr r.status) ++ ": " ++ r.text)) := by
        simp [chatCall, hst]
      refine ⟨by simp [hcc, hns], by simp [hcc, hns], ?_⟩
      intro r2 j s heq h200 hok hc
      injection heq with h2
      subst h2
      exact absurd h200 hst

/-- C3, corrected.  `call_perplexity_chat` and `call_grok_chat` return a
`(content, None)` pair exactly when the response has status 200, a decodable
JSON body, and `choices[0]["message"]["content"]` extracts to a string; in
every other case (non-200 status, raised exception, undecodable body, missing
or empty choices, or a malformed first choice) they return `(None, error
string)`; the embedding is a total function, so no exception escapes. -/
theorem C3_chat_call_content_iff :
    (∀ o, ((call_perplexity_chat o).1.isSome ↔ chatSuccess o) ∧
      ((call_perplexity_chat o).2.isSome ↔ ¬ chatSuccess o)) ∧
    (∀ o, ((call_grok_chat o).1.isSome ↔ chatSuccess o) ∧
      ((call_grok_chat o).2.isSome ↔ ¬ chatSuccess o)) ∧
    ∀ o r j s, o = .resp r → r.status = 200 → r.jsonBody = .ok j → contentOf j = .ok s →
      call_perplexity_chat o = (some (pyStrip s), none) ∧
      call_grok_chat o = (some (pyStrip s), none) := by
  refine ⟨fun o => ⟨(chatCall_spec perplexityNames o).1, (chatCall_spec perplexityNames o).2.1⟩,
    fun o => ⟨(chatCall_spec grokNames o).1, (chatCall_spec grokNames o).2.1⟩,
    fun o r j s h1 h2 h3 h4 => ⟨(chatCall_spec perplexityNames o).2.2 r j s h1 h2 h3 h4,
      (chatCall_spec grokNames o).2.2 r j s h1 h2 h3 h4⟩⟩

/-- C3 counterexample.  A response with status 200 and a non-empty `choices`
array whose first element lacks `"message"` makes the extraction raise
`KeyError`, so the call returns `(None, exception string)` even though the
claim's condition (status 200 and non-empty choices) holds. -/
theorem C3_counterexample :
    (Json.obj [("choices", Json.arr [Json.obj []])]).hasKey "choices" = .ok true ∧
    (Json.arr [Json.obj []]).lenE = .ok 1 ∧
    call_perplexity_chat
        (.resp ⟨200, "", .ok (Json.obj [("choices", Json.arr [Json.obj []])])⟩)
      = (none, some "Perplexity Exception: 'message'") := by
  refine ⟨rfl, rfl, by decide⟩

/-- A fully successful chat response used as the C3 witness input. -/
def c3okJson : Json :=
  Json.obj [("choices", Json.arr
    [Json.obj [("message", Json.obj [("content", Json.str " hi ")])]])]

/-- C3 witness: `C3_chat_call_content_iff` applied at a concrete successful
response. -/
theorem C3_chat_call_content_iff_witness :
    call_perplexity_chat (.resp ⟨200, "", .ok c3okJson⟩) = (some (pyStrip " hi "), none) ∧
    call_grok_chat (.resp ⟨200, "", .ok c3okJson⟩) = (some (pyStrip " hi "), none) :=
  C3_chat_call_content_iff.2.2 (.resp ⟨200, "", .ok c3okJson⟩) ⟨200, "", .ok c3okJson⟩
    c3okJson " hi " rfl rfl rfl rfl

/-! ### The locality-research dispatch (src/dataresearcher.py, lines 125-137) -/

inductive Vendor where
  | perplexity
  | grok
  deriving DecidableEq

/-- The observable result of one button press: the final output/error pair,
the `fallback_used` flag, and the ordered list of vendor calls made. -/
structure LocalityRun where
  finalOutput : Option String
  finalError : Option String
  fallbackUsed : Bool
  calls : List Vendor

/-- Lines 125-137: Perplexity is called first; exactly when its output is
`None` the fallback flag is set and Grok is called, otherwise Perplexity's
pair is the final result. -/
def runLocalityFetch (po go : CallOutcome) : LocalityRun :=
  if (call_perplexity_chat po).1 = none then
    ⟨(call_grok_chat go).1, (call_grok_chat go).2, true, [Vendor.perplexity, Vendor.grok]⟩
  else
    ⟨(call_perplexity_chat po).1, (call_perplexity_chat po).2, false, [Vendor.perplexity]⟩

/-- C2: in the locality-research script, Grok is called exactly when
Perplexity returns no content (`None`); when Perplexity returns content, that
content is the displayed result and no Grok call is made. -/
theorem C2_grok_called_iff_perplexity_none :
    ∀ po go,
      (Vendor.grok ∈ (runLocalityFetch po go).calls ↔ (call_perplexity_chat po).1 = none) ∧
      ((runLocalityFetch po go).fallbackUsed = true ↔ (call_perplexity_chat po).1 = none) ∧
      ∀ c, (call_perplexity_chat po).1 = some c →
        (runLocalityFetch po go).finalOutput = some c ∧
        (runLocalityFetch po go).calls = [Vendor.perplexity] := by
  intro po go
  by_cases h : (call_perplexity_chat po).1 = none
  · refine ⟨?_, ?_, ?_⟩ <;> simp [runLocalityFetch, h]
  · refine ⟨?_, ?_, ?_⟩ <;> simp [runLocalityFetch, h]

/-- A successful Perplexity outcome used as the C2 witness input. -/
def c2okJson : Json :=
  Json.obj [("choices", Json.arr
    [Json.obj [("message", Json.obj [("content", Json.str "result text")])]])]

/-- C2 witness: `C2_grok_called_iff_perplexity_none` applied at a concrete
successful Perplexity response (the Grok outcome is an exception that is
never consulted). -/
theorem C2_grok_called_iff_perplexity_none_witness :
    (runLocalityFetch (.resp ⟨200, "", .ok c2okJson⟩) (.exc "boom")).finalOutput
        = some "result text" ∧
    (runLocalityFetch (.resp ⟨200, "", .ok c2okJson⟩) (.exc "boom")).calls
        = [Vendor.perplexity] :=
  (C2_grok_called_iff_perplexity_none (.resp ⟨200, "", .ok c2okJson⟩) (.exc "boom")).2.2
    "result text" (by decide)

/-! ### `imageparser.get_vastu_insights` (src/imageparser.py, lines 119-161)

The function loops over candidate models, `continue`-ing on HTTP 404 and on
caught `RequestException`s whose text contains "404", returning specific
strings on 401/403/429, re-raising other 4xx/5xx via `raise_for_status`
(caught by the same `RequestException` handler), and returning the content of
the first successful response. -/

/-- Outcome of one model attempt's `requests.post(...)`: a raised
`RequestException` (connection errors and the like), another raised exception,
or a response.  For a response, `jsonBody` is the result of `response.json()`
(`Except.error` carries the decode-exception message; current `requests`
raises it as a `RequestException` subclass). -/
inductive VOutcome where
  | reqExc (msg : String)
  | otherExc (msg : String)
  | resp (status : Nat) (jsonBody : Except String Json)

def invalidKeyMsg : String := "Error: Invalid API key. Please check your XAI_API_KEY."

def forbiddenMsg : String := "Error: Access forbidden. Please check your API permissions."

def rateLimitMsg : String := "Error: Rate limit exceeded. Please try again later."

def allFailedMsg : String :=
  "Error: All Grok models failed. This might be a temporary issue with xAI servers. Please try again later."

def keyMissingMsg : String := "Error: XAI_API_KEY not found. Please set it in your environment."

/-- The message of the `HTTPError` raised by `response.raise_for_status()` for
a 4xx/5xx status: it interpolates the status code and the fixed endpoint URL
(neither of which contains "404" for the statuses that reach it, since 404
itself is intercepted earlier). -/
def httpErrorMsg (status : Nat) : String :=
  String.mk (decRepr status) ++ " Error for url: https://api.x.ai/v1/chat/completions"

/-- Line 149: the ungated `result["choices"][0]["message"]["content"]`
extraction; the value is returned as-is, not necessarily a string. -/
def vastuContent (j : Json) : Except PyErr Json :=
  match j.getKey "choices" with
  | .error e => .error e
  | .ok choices =>
    match choices.getIdx 0 with
    | .error e => .error e
    | .ok c0 =>
      match c0.getKey "message" with
      | .error e => .error e
      | .ok msg => msg.getKey "content"

/-- One iteration of the model loop (lines 122-158): `none` means `continue`
(advance to the next model), `some r` means return `r`. -/
def vastuStep (model : String) (o : VOutcome) : Option Json :=
  match o with
  | .reqExc m =>
    if occursS "404" m then none
    else some (.str ("Error with model " ++ model ++ ": " ++ m))
  | .otherExc m => some (.str ("Unexpected error with model " ++ model ++ ": " ++ m))
  | .resp status body =>
    if status = 404 then none
    else if status = 401 then some (.str invalidKeyMsg)
    else if status = 403 then some (.str forbiddenMsg)
    else if status = 429 then some (.str rateLimitMsg)
    else if 400 ≤ status ∧ status < 600 then
      if occursS "404" (httpErrorMsg status) then none
      else some (.str ("Error with model " ++ model ++ ": " ++ httpErrorMsg status))
    else
      match body with
      | .error m =>
        if occursS "404" m then none
        else some (.str ("Error with model " ++ model ++ ": " ++ m))
      | .ok result =>
        match vastuContent result with
        | .ok v => some v
        | .error e =>
          some (.str ("Unexpected error with model " ++ model ++ ": " ++ pyErrStr e))

def models_to_try : List String := ["grok-3", "grok-beta", "grok-2"]

/-- The `for model in models_to_try` loop with its trailing all-failed return;
the second component records the models attempted, in order. -/
def vastuLoop (f : String → VOutcome) : List String → Json × List String
  | [] => (.str allFailedMsg, [])
  | m :: ms =>
    match vastuStep m (f m) with
    | some r => (r, [m])
    | none => ((vastuLoop f ms).1, m :: (vastuLoop f ms).2)

/-- Embedding of `get_vastu_insights`: the missing-key early return (lines
74-75) followed by the model loop. -/
def get_vastu_insights (hasApiKey : Bool) (f : String → VOutcome) : Json × List String :=
  if hasApiKey then vastuLoop f models_to_try else (.str keyMissingMsg, [])

/-- The condition under which the loop advances past a model, stated
independently of `vastuStep`: HTTP 404, or a caught `RequestException`
(including a JSON-decode failure) whose message contains "404". -/
def advancesB : VOutcome → Bool
  | .reqExc m => occursS "404" m
  | .otherExc _ => false
  | .resp status body =>
    if status = 404 then true
    else if status = 401 ∨ status = 403 ∨ status = 429 then false
    else if 400 ≤ status ∧ status < 600 then occursS "404" (httpErrorMsg status)
    else
      match body with
      | .error m => occursS "404" m
      | .ok _ => false

theorem vastuStep_isNone (m : String) (o : VOutcome) :
    (vastuStep m o).isNone = advancesB o := by
  cases o with
  | reqExc msg => by_cases h : occursS "404" msg = true <;> simp [vastuStep, advancesB, h]
  | otherExc msg => simp [vastuStep, advancesB]
  | resp st body =>
    by_cases h404 : st = 404
    · simp [vastuStep, advancesB, h404]
    · by_cases h401 : st = 401
      · simp [vastuStep, advancesB, h404, h401]
      · by_cases h403 : st = 403
        · simp [vastuStep, advancesB, h404, h401, h403]
        · by_cases h429 : st = 429
          · simp [vastuStep, advancesB, h404, h401, h403, h429]
          · by_cases hr : 400 ≤ st ∧ st < 600
            · by_cases hocc : occursS "404" (httpErrorMsg st) = true <;>
                simp [vastuStep, advancesB, h404, h401, h403, h429, hr, hocc]
            · cases body with
              | error m =>
                by_cases hocc : occursS "404" m = true <;>
                  simp [vastuStep, advancesB, h404, h401, h403, h429, hr, hocc]
              | ok j =>
                cases hv : vastuContent j with
                | ok v => simp [vastuStep, advancesB, h404, h401, h403, h429, hr, hv]
                | error e => simp [vastuStep, advancesB, h404, h401, h403, h429, hr, hv]

theorem vastuLoop_all_adv {f : String → VOutcome} :
    ∀ ms, (∀ m ∈ ms, advancesB (f m) = true) → vastuLoop f ms = (.str allFailedMsg, ms) := by
  intro ms h
  induction ms with
  | nil => rfl
  | cons m ms ih =>
    have hm := h m (List.mem_cons_self _ _)
    have hiso := vastuStep_isNone m (f m)
    rw [hm] at hiso
    have hstep : vastuStep m (f m) = none := by
      cases h2 : vastuStep m (f m) with
      | none => rfl
      | some r => rw [h2] at hiso; simp at hiso
    simp [vastuLoop, hstep, ih (fun x hx => h x (List.mem_cons_of_mem _ hx))]

theorem vastuLoop_stop {f : String → VOutcome} {m : String} (ms : List String)
    (h : advancesB (f m) = false) :
    ∃ r, vastuStep m (f m) = some r ∧ vastuLoop f (m :: ms) = (r, [m]) := by
  have hiso := vastuStep_isNone m (f m)
  rw [h] at hiso
  cases h2 : vastuStep m (f m) with
  | none => rw [h2] at hiso; simp at hiso
  | some r => exact ⟨r, rfl, by simp [vastuLoop, h2]⟩

theorem vastuLoop_trace_cons (f : String → VOutcome) (m : String) (ms : List String) :
    (vastuLoop f (m :: ms)).2
      = m :: (if advancesB (f m) then (vastuLoop f ms).2 else []) := by
  have hiso := vastuStep_isNone m (f m)
  cases h2 : vastuStep m (f m) with
  | some r =>
    rw [h2] at hiso
    simp only [Option.isNone_some] at hiso
    simp [vastuLoop, h2, ← hiso]
  | none =>
    rw [h2] at hiso
    simp only [Option.isNone_none] at hiso
    simp [vastuLoop, h2, ← hiso]

/-- C4, corrected.  `get_vastu_insights` tries 'grok-3', 'grok-beta', 'grok-2'
in that order; it advances to the next model exactly when the attempt yields
HTTP 404 **or** a caught `RequestException` whose text contains "404"
(including JSON-decode failures); 401/403/429 end the chain with their
specific error strings; if every model is advanced past, the all-models-failed
string is returned; the embedding is a total function (no exception escapes),
returning the raw content value on success. -/
theorem C4_vastu_model_chain :
    ∀ f : String → VOutcome,
      get_vastu_insights false f = (.str keyMissingMsg, []) ∧
      (∀ m o, (vastuStep m o).isNone = advancesB o) ∧
      (∀ b, advancesB (.resp 404 b) = true) ∧
      ((get_vastu_insights true f).2
        = "grok-3" :: (if advancesB (f "grok-3") then
            "grok-beta" :: (if advancesB (f "grok-beta") then ["grok-2"] else [])
          else [])) ∧
      ((∀ m ∈ models_to_try, advancesB (f m) = true) →
        get_vastu_insights true f = (.str allFailedMsg, models_to_try)) ∧
      ∀ st b, f "grok-3" = .resp st b →
        (st = 401 → get_vastu_insights true f = (.str invalidKeyMsg, ["grok-3"])) ∧
        (st = 403 → get_vastu_insights true f = (.str forbiddenMsg, ["grok-3"])) ∧
        (st = 429 → get_vastu_insights true f = (.str rateLimitMsg, ["grok-3"])) := by
  intro f
  refine ⟨rfl, vastuStep_isNone, fun b => rfl, ?_, ?_, ?_⟩
  · show (vastuLoop f ["grok-3", "grok-beta", "grok-2"]).2 = _
    rw [vastuLoop_trace_cons, vastuLoop_trace_cons, vastuLoop_trace_cons]
    simp [vastuLoop]
  · intro h
    show vastuLoop f models_to_try = _
    exact vastuLoop_all_adv models_to_try h
  · intro st b hf
    refine ⟨?_, ?_, ?_⟩ <;>
      · rintro rfl
        show vastuLoop f ["grok-3", "grok-beta", "grok-2"] = _
        simp [vastuLoop, vastuStep, hf]

/-- The C4 counterexample request behaviour: every post raises a
`RequestException` whose message mentions 404 (for instance a proxy error),
with no HTTP response at all. -/
def c4reqFail : String → VOutcome :=
  fun _ => .reqExc "HTTPSConnectionPool: Max retries exceeded (ProxyError 404 Gateway)"

/-- C4 counterexample.  All three models are advanced past and the
all-models-failed string is returned although no attempt yielded an HTTP 404
response — the chain advanced on raised `RequestException`s whose text merely
contains "404", so "advancing exactly on HTTP 404" is false. -/
theorem C4_counterexample :
    c4reqFail "grok-3"
        = .reqExc "HTTPSConnectionPool: Max retries exceeded (ProxyError 404 Gateway)" ∧
    get_vastu_insights true c4reqFail
        = (.str allFailedMsg, ["grok-3", "grok-beta", "grok-2"]) :=
  ⟨rfl, rfl⟩

/-- The C4 witness request behaviour: the first model immediately yields
HTTP 401. -/
def c4unauth : String → VOutcome := fun _ => .resp 401 (.ok .null)

/-- C4 witness: `C4_vastu_model_chain` applied at a concrete 401 outcome. -/
theorem C4_vastu_model_chain_witness :
    get_vastu_insights true c4unauth = (.str invalidKeyMsg, ["grok-3"]) :=
  ((C4_vastu_model_chain c4unauth).2.2.2.2.2 401 (.ok .null) rfl).1 rfl

/-! ### `keywordfinder.fetch_keywords_for_url` (src/keywordfinder.py, lines 31-69)

The DataForSEO request is tried first; only a 404 triggers the Scraper API
fallback; other non-200 statuses return `[]` directly; on a 200 response the
nested `tasks[0].result[0].items` value is extracted with `KeyError` /
`IndexError` caught (other exceptions propagate). -/

structure DfsResp where
  status : Nat
  jsonBody : Except String Json

/-- A meta tag as BeautifulSoup presents it to the loop of lines 60-62:
`meta.get("name", "")` and `meta.get("content", "")`. -/
structure MetaTag where
  nameAttr : String
  content : String

structure ScrapResp where
  status : Nat
  metas : List MetaTag

/-- Lines 59-62: the comma-split contents of every meta tag whose name
contains "keywords" (lower-cased), in document order. -/
def scraperRawKeywords (metas : List MetaTag) : List (List Char) :=
  (metas.map (fun mtag =>
    if occursL "keywords".data (lowerAscii mtag.nameAttr.data)
    then splitCharL ',' mtag.content.data else [])).flatten

/-- Line 63: `[{"keyword": kw.strip(), "search_volume": 0} for kw in keywords
if kw.strip()]`. -/
def scraperItems (metas : List MetaTag) : List Json :=
  ((scraperRawKeywords metas).filter (fun kw => !(stripL kw).isEmpty)).map
    (fun kw => Json.obj [("keyword", .str (String.mk (stripL kw))), ("search_volume", .num 0)])

/-- Line 44: `result["tasks"][0]["result"][0]["items"]`. -/
def dfsItems (j : Json) : Except PyErr Json :=
  match j.getKey "tasks" with
  | .error e => .error e
  | .ok tasks =>
    match tasks.getIdx 0 with
    | .error e => .error e
    | .ok t0 =>
      match t0.getKey "result" with
      | .error e => .error e
      | .ok res =>
        match res.getIdx 0 with
        | .error e => .error e
        | .ok r0 => r0.getKey "items"

/-- Embedding of `fetch_keywords_for_url`.  The first component is the
returned value (`Except.error` = an uncaught exception propagating to the
caller: an undecodable 200 body at line 41, or a non-KeyError/IndexError
failure inside line 44); the second component records whether the Scraper API
fallback was called. -/
def fetch_keywords_for_url (dfs : DfsResp) (scraper : ScrapResp) : Except PyErr Json × Bool :=
  if dfs.status = 200 then
    (match dfs.jsonBody with
     | .error m => .error (.jsonError m)
     | .ok j =>
       match dfsItems j with
       | .ok items => .ok items
       | .error (.keyError _) => .ok (.arr [])
       | .error .indexError => .ok (.arr [])
       | .error e => .error e, false)
  else if dfs.status = 404 then
    (if scraper.status = 200 then .ok (.arr (scraperItems scraper.metas))
     else .ok (.arr []), true)
  else (.ok (.arr []), false)

/-- C5, corrected.  The Scraper API fallback is called exactly when DataForSEO
answers 404 (not on every non-200 status); all non-200 paths and the
404-with-failed-scraper path return a (possibly empty) list; on a 200 response
the extracted items are returned, with `KeyError`/`IndexError` mapped to `[]`
(other failure shapes propagate). -/
theorem C5_fetch_fallback_iff_404 :
    ∀ dfs scraper,
      ((fetch_keywords_for_url dfs scraper).2 = true ↔ dfs.status = 404) ∧
      (dfs.status = 404 → scraper.status = 200 →
        fetch_keywords_for_url dfs scraper = (.ok (.arr (scraperItems scraper.metas)), true)) ∧
      (dfs.status = 404 → scraper.status ≠ 200 →
        fetch_keywords_for_url dfs scraper = (.ok (.arr []), true)) ∧
      (dfs.status ≠ 200 → dfs.status ≠ 404 →
        fetch_keywords_for_url dfs scraper = (.ok (.arr []), false)) ∧
      ∀ j, dfs.status = 200 → dfs.jsonBody = .ok j →
        (∀ k, dfsItems j = .error (.keyError k) →
          fetch_keywords_for_url dfs scraper = (.ok (.arr []), false)) ∧
        (dfsItems j = .error .indexError →
          fetch_keywords_for_url dfs scraper = (.ok (.arr []), false)) ∧
        ∀ items, dfsItems j = .ok items →
          fetch_keywords_for_url dfs scraper = (.ok items, false) := by
  intro dfs scraper
  by_cases h200 : dfs.status = 200
  · have hn404 : dfs.status ≠ 404 := by rw [h200]; decide
    refine ⟨?_, ?_, ?_, ?_, ?_⟩
    · constructor
      · intro h2
        simp [fetch_keywords_for_url, h200] at h2
      · intro h4
        exact absurd h4 hn404
    · intro h4; exact absurd h4 hn404
    · intro h4; exact absurd h4 hn404
    · intro hne; exact absurd h200 hne
    · intro j _ hj
      refine ⟨?_, ?_, ?_⟩
      · intro k hk
        simp [fetch_keywords_for_url, h200, hj, hk]
      · intro hk
        simp [fetch_keywords_for_url, h200, hj, hk]
      · intro items hk
        simp [fetch_keywords_for_url, h200, hj, hk]
  · by_cases h404 : dfs.status = 404
    · refine ⟨?_, ?_, ?_, ?_, ?_⟩
      · simp [fetch_keywords_for_url, h200, h404]
      · intro _ hs
        simp [fetch_keywords_for_url, h200, h404, hs]
      · intro _ hs
        simp [fetch_keywords_for_url, h200, h404, hs]
      · intro _ hne
        exact absurd h404 hne
      · intro j hj
        exact absurd hj h200
    · refine ⟨?_, ?_, ?_, ?_, ?_⟩
      · simp [fetch_keywords_for_url, h200, h404]
      · intro h4; exact absurd h4 h404
      · intro h4; exact absurd h4 h404
      · intro _ _
        simp [fetch_keywords_for_url, h200, h404]
      · intro j hj
        exact absurd hj h200

/-- C5 counterexample.  A 500 response from DataForSEO does not trigger the
Scraper fallback (flag `false`) and yields `[]`, although the scraper would
have produced keywords — so "fallback on every non-200 status" is false. -/
theorem C5_counterexample :
    fetch_keywords_for_url ⟨500, .ok .null⟩ ⟨200, [⟨"keywords", "a,b"⟩]⟩
        = (.ok (.arr []), false) ∧
    scraperItems [⟨"keywords", "a,b"⟩]
        = [Json.obj [("keyword", .str "a"), ("search_volume", .num 0)],
           Json.obj [("keyword", .str "b"), ("search_volume", .num 0)]] :=
  ⟨rfl, rfl⟩

/-- C5 witness: `C5_fetch_fallback_iff_404` applied at a concrete 404 + 200
pair. -/
theorem C5_fetch_fallback_iff_404_witness :
    fetch_keywords_for_url ⟨404, .ok .null⟩ ⟨200, [⟨"Keywords", " x , ,y "⟩]⟩
      = (.ok (.arr (scraperItems [⟨"Keywords", " x , ,y "⟩])), true) :=
  (C5_fetch_fallback_iff_404 ⟨404, .ok .null⟩ ⟨200, [⟨"Keywords", " x , ,y "⟩]⟩).2.1 rfl rfl

/-! ### `keywordfinder.classify_with_grok` (src/keywordfinder.py, lines 88-108)

`json.loads` is taken as a parameter (`loads`); the function catches only
`KeyError` and `json.JSONDecodeError`. -/

structure GrokResp where
  status : Nat
  jsonBody : Except String Json

/-- Line 105/107/108: the fallback dictionary. -/
def defaultClassify : Json :=
  .obj [("article_worthy", .str "No"), ("title", .str ""), ("intent", .str ""),
    ("related_topics", .arr [])]

/-- The expression `json.loads(data["choices"][0]["text"].strip())` of
line 105, as a chain that can raise. -/
def classifyChain (loads : String → Except String Json) (data : Json) : Except PyErr Json :=
  match data.getKey "choices" with
  | .error e => .error e
  | .ok choices =>
    match choices.getIdx 0 with
    | .error e => .error e
    | .ok c0 =>
      match c0.getKey "text" with
      | .error e => .error e
      | .ok t =>
        match t.asStr with
        | .error e => .error e
        | .ok s =>
          match loads (pyStrip s) with
          | .error m => .error (.jsonError m)
          | .ok v => .ok v

/-- Embedding of `classify_with_grok`.  `Except.error` = an uncaught
exception propagating to the caller (`IndexError` on empty choices,
`TypeError`/`AttributeError` on malformed data). -/
def classify_with_grok (loads : String → Except String Json) (r : GrokResp) :
    Except PyErr Json :=
  if r.status = 200 then
    match r.jsonBody with
    | .error _ => .ok defaultClassify
    | .ok data =>
      match data.hasKey "choices" with
      | .error e => .error e
      | .ok has =>
        if has then
          match classifyChain loads data with
          | .ok v => .ok v
          | .error (.keyError _) => .ok defaultClassify
          | .error (.jsonError _) => .ok defaultClassify
          | .error e => .error e
        else .ok defaultClassify
  else .ok defaultClassify

/-- C6, corrected.  `classify_with_grok` returns the default dictionary on a
non-200 status, an undecodable body, a missing `"choices"` membership test, a
`KeyError` during extraction, or invalid completion JSON; but when the
completion text parses, the parsed value is returned verbatim — it is **not**
checked for the four keys — and an empty `choices` array raises an uncaught
`IndexError` (likewise `TypeError`/`AttributeError` on malformed shapes). -/
theorem C6_classify_default_cases :
    ∀ (loads : String → Except String Json) (r : GrokResp),
      (r.status ≠ 200 → classify_with_grok loads r = .ok defaultClassify) ∧
      (∀ m, r.status = 200 → r.jsonBody = .error m →
        classify_with_grok loads r = .ok defaultClassify) ∧
      ∀ data, r.status = 200 → r.jsonBody = .ok data →
        (data.hasKey "choices" = .ok false →
          classify_with_grok loads r = .ok defaultClassify) ∧
        (data.hasKey "choices" = .ok true →
          (∀ v, classifyChain loads data = .ok v → classify_with_grok loads r = .ok v) ∧
          (∀ k, classifyChain loads data = .error (.keyError k) →
            classify_with_grok loads r = .ok defaultClassify) ∧
          (∀ m, classifyChain loads data = .error (.jsonError m) →
            classify_with_grok loads r = .ok defaultClassify) ∧
          (classifyChain loads data = .error .indexError →
            classify_with_grok loads r = .error .indexError)) := by
  intro loads r
  refine ⟨?_, ?_, ?_⟩
  · intro hne
    simp [classify_with_grok, hne]
  · intro m h200 hm
    simp [classify_with_grok, h200, hm]
  · intro data h200 hdata
    refine ⟨?_, ?_⟩
    · intro hhk
      simp [classify_with_grok, h200, hdata, hhk]
    · intro hhk
      refine ⟨?_, ?_, ?_, ?_⟩
      · intro v hv
        simp [classify_with_grok, h200, hdata, hhk, hv]
      · intro k hk
        simp [classify_with_grok, h200, hdata, hhk, hk]
      · intro m hm
        simp [classify_with_grok, h200, hdata, hhk, hm]
      · intro hk
        simp [classify_with_grok, h200, hdata, hhk, hk]

/-- The parse behaviour of `json.loads` on the counterexample completion:
the text is valid JSON but only carries an `intent` key. -/
def c6loads : String → Except String Json :=
  fun _ => .ok (.obj [("intent", .str "FAQ")])

/-- C6 counterexample.  A 200 response whose completion parses as
`{"intent": "FAQ"}` is returned verbatim without the other three keys, and a
200 response with an empty `choices` array raises an uncaught `IndexError` —
refuting both the always-four-keys and the never-raises parts. -/
theorem C6_counterexample :
    classify_with_grok c6loads
        ⟨200, .ok (.obj [("choices", .arr [.obj [("text", .str "ignored")]])])⟩
      = .ok (.obj [("intent", .str "FAQ")]) ∧
    (Json.obj [("intent", .str "FAQ")]).hasKey "article_worthy" = .ok false ∧
    classify_with_grok c6loads ⟨200, .ok (.obj [("choices", .arr [])])⟩
      = .error .indexError :=
  ⟨rfl, rfl, rfl⟩

/-- C6 witness: `C6_classify_default_cases` applied at a concrete non-200
response. -/
theorem C6_classify_default_cases_witness :
    classify_with_grok c6loads ⟨500, .ok .null⟩ = .ok defaultClassify :=
  (C6_classify_default_cases c6loads ⟨500, .ok .null⟩).1 (by decide)

/-! ### `texttospeech.detect_language` (src/texttospeech.py, lines 210-252)

Script-range checks on the raw text come first (Devanagari with a Sanskrit
word list, then eight other ranges), then `langdetect` on the cleaned text,
then the English default.  `langdetect` and the regex classes `\w`/`\s` are
parameters. -/

/-- One row of the `INDIC_LANGUAGES` table (lines 46-59). -/
structure LangInfo where
  name : String
  code : String
  display : String
  tld : String

def INDIC_LANGUAGES : List (String × LangInfo) :=
  [("hi", ⟨"Hindi", "hi", "हिन्दी", "co.in"⟩),
   ("bn", ⟨"Bengali", "bn", "বাংলা", "com.bd"⟩),
   ("te", ⟨"Telugu", "te", "తెలుగు", "co.in"⟩),
   ("ta", ⟨"Tamil", "ta", "தமிழ்", "co.in"⟩),
   ("mr", ⟨"Marathi", "mr", "मराठी", "co.in"⟩),
   ("gu", ⟨"Gujarati", "gu", "ગુજરાતી", "co.in"⟩),
   ("kn", ⟨"Kannada", "kn", "ಕನ್ನಡ", "co.in"⟩),
   ("ml", ⟨"Malayalam", "ml", "മലയാളം", "co.in"⟩),
   ("pa", ⟨"Punjabi", "pa", "ਪੰਜਾਬੀ", "co.in"⟩),
   ("ur", ⟨"Urdu", "ur", "اردو", "com.pk"⟩),
   ("en", ⟨"English", "en", "English", "co.in"⟩),
   ("sa", ⟨"Sanskrit", "hi", "संस्कृत", "co.in"⟩)]

/-- The codepoint-range test `re.search(r'[\u....-\u....]', text)`. -/
def anyInRange (lo hi : Nat) (s : String) : Bool :=
  s.data.any (fun c => decide (lo ≤ c.toNat) && decide (c.toNat ≤ hi))

/-- Line 220: the Sanskrit marker words. -/
def sanskritWords : List String := ["संस्कृत", "वेद", "श्लोक", "मंत्र"]

/-- The nine script checks of lines 218-237, in source order, returning the
matched `(code, name)` pair. -/
def scriptCheck (text : String) : Option (String × String) :=
  if anyInRange 0x900 0x97F text then
    if sanskritWords.any (fun w => occursS w text) then some ("sa", "Sanskrit")
    else some ("hi", "Hindi")
  else if anyInRange 0x980 0x9FF text then some ("bn", "Bengali")
  else if anyInRange 0xC00 0xC7F text then some ("te", "Telugu")
  else if anyInRange 0xB80 0xBFF text then some ("ta", "Tamil")
  else if anyInRange 0xA80 0xAFF text then some ("gu", "Gujarati")
  else if anyInRange 0xC80 0xCFF text then some ("kn", "Kannada")
  else if anyInRange 0xD00 0xD7F text then some ("ml", "Malayalam")
  else if anyInRange 0xA00 0xA7F text then some ("pa", "Punjabi")
  else if anyInRange 0x600 0x6FF text then some ("ur", "Urdu")
  else none

/-- Line 213: `re.sub(r'[^\w\s]', '', text).strip()`, with the regex classes
as parameters. -/
def cleanTextOf (wordChar spaceChar : Char → Bool) (text : String) : String :=
  String.mk (stripBy spaceChar (text.data.filter (fun c => wordChar c || spaceChar c)))

/-- Embedding of `detect_language`: empty-after-cleaning default, script
checks on the raw text, then `langdetect` (`det`; `none` models a raised
exception) gated by `LANGDETECT_AVAILABLE`, then the English default.  Every
operation is total, so the outer `except` (line 251) never fires. -/
def detect_language (wordChar spaceChar : Char → Bool) (langAvail : Bool)
    (det : String → Option String) (text : String) : String × String :=
  if (cleanTextOf wordChar spaceChar text).data.isEmpty then ("en", "English")
  else
    match scriptCheck text with
    | some p => p
    | none =>
      if langAvail then
        match det (cleanTextOf wordChar spaceChar text) with
        | some d =>
          match INDIC_LANGUAGES.lookup d with
          | some info => (d, info.name)
          | none => ("en", "English")
        | none => ("en", "English")
      else ("en", "English")

/-- Every script-check result is a key of the table, paired with its name. -/
theorem scriptCheck_sound {text : String} {p : String × String}
    (h : scriptCheck text = some p) :
    ∃ info, INDIC_LANGUAGES.lookup p.1 = some info ∧ p.2 = info.name := by
  unfold scriptCheck at h
  repeat' split at h
  all_goals cases h
  all_goals exact ⟨_, rfl, rfl⟩

/-- C9: `detect_language` always returns a key of `INDIC_LANGUAGES` (with the
table's name as the second component), and defaults to `('en', 'English')`
when the text matches no recognised script and `langdetect` yields no
supported language; the embedding is total, so no exception escapes. -/
theorem C9_detect_language_in_table :
    ∀ (wordChar spaceChar : Char → Bool) (langAvail : Bool)
      (det : String → Option String) (text : String),
      (∃ info,
        INDIC_LANGUAGES.lookup (detect_language wordChar spaceChar langAvail det text).1
          = some info ∧
        (detect_language wordChar spaceChar langAvail det text).2 = info.name) ∧
      (scriptCheck text = none →
        (∀ d, det (cleanTextOf wordChar spaceChar text) = some d →
          INDIC_LANGUAGES.lookup d = none) →
        detect_language wordChar spaceChar langAvail det text = ("en", "English")) := by
  intro wc sc la det text
  constructor
  · by_cases hcl : (cleanTextOf wc sc text).data.isEmpty = true
    · have hval : detect_language wc sc la det text = ("en", "English") := by
        unfold detect_language
        rw [if_pos hcl]
      rw [hval]
      exact ⟨_, rfl, rfl⟩
    · cases hsc : scriptCheck text with
      | some p =>
        have hval : detect_language wc sc la det text = p := by
          unfold detect_language
          rw [if_neg hcl, hsc]
        rw [hval]
        exact scriptCheck_sound hsc
      | none =>
        cases la with
        | false =>
          have hval : detect_language wc sc false det text = ("en", "English") := by
            unfold detect_language
            rw [if_neg hcl, hsc]
            rfl
          rw [hval]
          exact ⟨_, rfl, rfl⟩
        | true =>
          cases hdet : det (cleanTextOf wc sc text) with
          | none =>
            have hval : detect_language wc sc true det text = ("en", "English") := by
              unfold detect_language
              rw [if_neg hcl, hsc, hdet]
              rfl
            rw [hval]
            exact ⟨_, rfl, rfl⟩
          | some d =>
            have hval : detect_language wc sc true det text
                = (match INDIC_LANGUAGES.lookup d with
                   | some info => (d, info.name)
                   | none => ("en", "English")) := by
              unfold detect_language
              rw [if_neg hcl, hsc, hdet]
              rfl
            rw [hval]
            cases hlk : INDIC_LANGUAGES.lookup d with
            | none => exact ⟨_, rfl, rfl⟩
            | some info => exact ⟨info, hlk, rfl⟩
  · intro hsc hdet
    by_cases hcl : (cleanTextOf wc sc text).data.isEmpty = true
    · unfold detect_language
      rw [if_pos hcl]
    · cases la with
      | false =>
        unfold detect_language
        rw [if_neg hcl, hsc]
        rfl
      | true =>
        cases hdetv : det (cleanTextOf wc sc text) with
        | none =>
          unfold detect_language
          rw [if_neg hcl, hsc, hdetv]
          rfl
        | some d =>
          have hval : detect_language wc sc true det text
              = (match INDIC_LANGUAGES.lookup d with
                 | some info => (d, info.name)
                 | none => ("en", "English")) := by
            unfold detect_language
            rw [if_neg hcl, hsc, hdetv]
            rfl
          rw [hval, hdet d hdetv]

/-- C9 witness: `C9_detect_language_in_table` applied at a concrete text with
no Indic script and an unsupported `langdetect` answer. -/
theorem C9_detect_language_in_table_witness :
    detect_language (fun c => c.isAlphanum) pyIsSpace true (fun _ => some "fr") "bonjour!"
      = ("en", "English") :=
  (C9_detect_language_in_table (fun c => c.isAlphanum) pyIsSpace true (fun _ => some "fr")
    "bonjour!").2 (by decide)
    (fun d hd => by
      injection hd with h
      subst h
      rfl)

/-! ### `videoparser.extract_video_id` (src/videoparser.py, lines 126-137)

The function is a thin wrapper over `urllib.parse.urlparse` and `parse_qs`.
Those two stdlib functions are modelled below following CPython's
`urllib/parse.py`: whitespace/control stripping, scheme detection, `//`-netloc
splitting (with the bracket-mismatch `ValueError`), fragment/query splitting,
params splitting, the `hostname` property, and `parse_qsl` with
`keep_blank_values=False`.  Percent-decoding (`unquote`) is a parameter. -/

/-- The bytes `\t`, `\r`, `\n` removed everywhere by `urlsplit`. -/
def urlUnsafeChar (c : Char) : Bool := c = '\t' || c = '\r' || c = '\n'

/-- WHATWG C0-control-or-space class stripped from both ends by `urlsplit`. -/
def isC0OrSpace (c : Char) : Bool := decide (c.toNat ≤ 32)

def isAsciiAlpha (c : Char) : Bool :=
  (decide (65 ≤ c.toNat) && decide (c.toNat ≤ 90))
    || (decide (97 ≤ c.toNat) && decide (c.toNat ≤ 122))

/-- `scheme_chars` of `urllib.parse`. -/
def isSchemeChar (c : Char) : Bool :=
  isAsciiAlpha c || isDigitC c || c = '+' || c = '-' || c = '.'

/-- Scheme detection of `urlsplit`: a leading ASCII letter followed by scheme
characters up to the first `':'`; the scheme is lower-cased. -/
def splitScheme (l : List Char) : List Char × List Char :=
  match firstCut [':'] l with
  | none => ([], l)
  | some (pre2, rest) =>
    match pre2 with
    | [] => ([], l)
    | c :: _ =>
      if isAsciiAlpha c && pre2.all isSchemeChar then (lowerAscii pre2, rest)
      else ([], l)

/-- A character that stays inside the netloc (`_splitnetloc` stops at the
first of `/`, `?`, `#`). -/
def netChar (c : Char) : Bool := !(c = '/' || c = '?' || c = '#')

/-- The bracket-mismatch check of `urlsplit` (raises `ValueError`). -/
def bracketMismatch (nl : List Char) : Bool :=
  (decide ('[' ∈ nl) && !(decide (']' ∈ nl))) || (decide (']' ∈ nl) && !(decide ('[' ∈ nl)))

/-- Python `s.split(c, 1)` when `c` occurs, `(s, '')` otherwise. -/
def cutOr (c : Char) (l : List Char) : List Char × List Char :=
  match firstCut [c] l with
  | some (u, v) => (u, v)
  | none => (l, [])

/-- Split at the last `'/'` (Python `s.rfind('/')`). -/
def lastSlashCut (l : List Char) : Option (List Char × List Char) :=
  match firstCut ['/'] l.reverse with
  | none => none
  | some (revAfter, revBefore) => some (revBefore.reverse, revAfter.reverse)

/-- Helper of `_splitparams`: search for `';'` in the last path segment. -/
def paramsSplitAux (l a b : List Char) : List Char × List Char :=
  match firstCut [';'] b with
  | some (b1, b2) => (a ++ '/' :: b1, b2)
  | none => (l, [])

/-- `_splitparams`: split the params off the last path segment at its first
`';'`. -/
def paramsSplit (l : List Char) : List Char × List Char :=
  if occursL [';'] l then
    match lastSlashCut l with
    | some (a, b) => paramsSplitAux l a b
    | none =>
      (match firstCut [';'] l with
       | some (l1, l2) => (l1, l2)
       | none => (l, []))
  else (l, [])

/-- Fragment, query, and params splitting applied to the post-netloc rest:
returns `(path, params, query, fragment)`. -/
def tailParse (rest : List Char) : List Char × List Char × List Char × List Char :=
  ((paramsSplit (cutOr '?' (cutOr '#' rest).1).1).1,
   (paramsSplit (cutOr '?' (cutOr '#' rest).1).1).2,
   (cutOr '?' (cutOr '#' rest).1).2,
   (cutOr '#' rest).2)

/-- The components of `urlparse` that `extract_video_id` consults. -/
structure UrlParts where
  scheme : List Char
  netloc : List Char
  path : List Char
  params : List Char
  query : List Char
  fragment : List Char

/-- The byte cleaning `urlsplit` performs before parsing. -/
def urlClean (url0 : List Char) : List Char :=
  (stripBy isC0OrSpace url0).filter (fun c => !urlUnsafeChar c)

/-- Embedding of `urllib.parse.urlparse` (as far as scheme/netloc/path/
params/query/fragment are concerned); `Except.error` models the
bracket-mismatch `ValueError`. -/
def pyUrlparseE (url0 : List Char) : Except String UrlParts :=
  if startsWithL ['/', '/'] (splitScheme (urlClean url0)).2 then
    if bracketMismatch (((splitScheme (urlClean url0)).2.drop 2).takeWhile netChar) then
      .error "Invalid IPv6 URL"
    else
      .ok ⟨(splitScheme (urlClean url0)).1,
        ((splitScheme (urlClean url0)).2.drop 2).takeWhile netChar,
        (tailParse (((splitScheme (urlClean url0)).2.drop 2).dropWhile netChar)).1,
        (tailParse (((splitScheme (urlClean url0)).2.drop 2).dropWhile netChar)).2.1,
        (tailParse (((splitScheme (urlClean url0)).2.drop 2).dropWhile netChar)).2.2.1,
        (tailParse (((splitScheme (urlClean url0)).2.drop 2).dropWhile netChar)).2.2.2⟩
  else
    .ok ⟨(splitScheme (urlClean url0)).1, [],
      (tailParse (splitScheme (urlClean url0)).2).1,
      (tailParse (splitScheme (urlClean url0)).2).2.1,
      (tailParse (splitScheme (urlClean url0)).2).2.2.1,
      (tailParse (splitScheme (urlClean url0)).2).2.2.2⟩

/-- `netloc.rpartition('@')[2]`. -/
def afterLastAt (l : List Char) : List Char :=
  match firstCut ['@'] l.reverse with
  | some (revAfter, _) => revAfter.reverse
  | none => l

/-- The `hostname` property of a split result: strip userinfo, take the
bracketed host or the part before the port colon, lower-case, `None` when
empty. -/
def hostnameOf (netloc : List Char) : Option String :=
  let hostinfo := afterLastAt netloc
  let hostRaw :=
    if occursL ['['] hostinfo then
      match firstCut ['['] hostinfo with
      | some (_, br) =>
        (match firstCut [']'] br with
         | some (h, _) => h
         | none => br)
      | none => hostinfo
    else
      match firstCut [':'] hostinfo with
      | some (h, _) => h
      | none => hostinfo
  if hostRaw.isEmpty then none else some (String.mk (lowerAscii hostRaw))

/-- `nv.replace('+', ' ')` of `parse_qsl`. -/
def plusToSpace (l : List Char) : List Char := l.map (fun c => if c = '+' then ' ' else c)

/-- `urllib.parse.parse_qsl(qs)` with default arguments (separator `'&'`,
`keep_blank_values=False`): pairs without `'='` or with an empty value are
skipped; names and values are plus-decoded and percent-decoded (`unq`). -/
def parse_qsl (unq : String → String) (qs : List Char) : List (String × String) :=
  (splitCharL '&' qs).filterMap (fun nv =>
    if nv.isEmpty then none
    else
      match firstCut ['='] nv with
      | none => none
      | some (n, v) =>
        if v.isEmpty then none
        else some (unq (String.mk (plusToSpace n)), unq (String.mk (plusToSpace v))))

/-- Embedding of `extract_video_id` (lines 126-137): `youtu.be` hosts return
the path with its first character dropped, `youtube.com` hosts return the
first `'v'` query value via `parse_qs(...).get('v', [None])[0]`, everything
else (including the caught `ValueError`) returns `None`. -/
def extract_video_id (unq : String → String) (url : String) : Option String :=
  match pyUrlparseE url.data with
  | .error _ => none
  | .ok u =>
    match hostnameOf u.netloc with
    | some h =>
      if h = "youtu.be" then some (String.mk (u.path.drop 1))
      else if h = "www.youtube.com" ∨ h = "youtube.com" then
        match ((parse_qsl unq u.query).filter (fun kv => kv.1 = "v")).head? with
        | some kv => some kv.2
        | none => none
      else none
    | none => none

/-- The claim's reading of `path[1:]`: the path without its leading slash. -/
def stripLeadSlash (l : List Char) : List Char :=
  if l.head? = some '/' then l.tail else l

example : extract_video_id id "https://youtu.be/abc123" = some "abc123" := by decide

example : extract_video_id id "https://www.youtube.com/watch?v=dQw4w9&t=1" = some "dQw4w9" := by
  decide

example : extract_video_id id "https://www.youtube.com/watch?t=1" = none := by decide

example : extract_video_id id "https://example.com/watch?v=x" = none := by decide

/-! Lemmas characterising the single-character cuts, used to show the path of
a netloc-bearing URL is empty or starts with `'/'`. -/

theorem firstCut_single_eq {c : Char} {l a b : List Char}
    (h : firstCut [c] l = some (a, b)) : l = a ++ c :: b ∧ c ∉ a := by
  induction l generalizing a b with
  | nil => simp [firstCut] at h
  | cons x xs ih =>
    rw [firstCut] at h
    split at h
    · rename_i hsw
      have hcx : c = x := by simpa [startsWithL] using hsw
      injection h with h2
      rw [Prod.mk.injEq] at h2
      obtain ⟨ha, hb⟩ := h2
      subst hcx
      rw [← ha, ← hb]
      constructor
      · simp
      · simp
    · rename_i hsw
      have hcx : ¬ (c = x) := by
        intro he
        subst he
        simp [startsWithL] at hsw
      cases hfc : firstCut [c] xs with
      | none => rw [hfc] at h; cases h
      | some p =>
        obtain ⟨a2, b2⟩ := p
        rw [hfc] at h
        injection h with h2
        rw [Prod.mk.injEq] at h2
        obtain ⟨ha, hb⟩ := h2
        obtain ⟨hl, hna⟩ := ih hfc
        rw [← ha, ← hb]
        constructor
        · rw [hl]
          rfl
        · intro hm
          rcases List.mem_cons.mp hm with he | he
          · exact hcx he
          · exact hna he

theorem cutOr_head (c : Char) (l : List Char) :
    (cutOr c l).1 = [] ∨ (cutOr c l).1.head? = l.head? := by
  unfold cutOr
  cases hf : firstCut [c] l with
  | none => exact Or.inr rfl
  | some p =>
    obtain ⟨a, b⟩ := p
    obtain ⟨hl, _⟩ := firstCut_single_eq hf
    cases a with
    | nil => exact Or.inl rfl
    | cons y ys => exact Or.inr (by rw [hl]; rfl)

theorem cutOr_head_self {c : Char} {l : List Char} (h : l.head? = some c) :
    (cutOr c l).1 = [] := by
  cases l with
  | nil => cases h
  | cons x xs =>
    injection h with h2
    subst h2
    unfold cutOr
    have hfc : firstCut [x] (x :: xs) = some ([], xs) := by
      rw [firstCut, if_pos (by simp [startsWithL])]
      rfl
    rw [hfc]

theorem lastSlashCut_eq {l a b : List Char} (h : lastSlashCut l = some (a, b)) :
    l = a ++ '/' :: b := by
  unfold lastSlashCut at h
  cases hf : firstCut ['/'] l.reverse with
  | none => rw [hf] at h; cases h
  | some p =>
    obtain ⟨ra, rb⟩ := p
    rw [hf] at h
    injection h with h2
    rw [Prod.mk.injEq] at h2
    obtain ⟨ha, hb⟩ := h2
    obtain ⟨hl, _⟩ := firstCut_single_eq hf
    rw [← ha, ← hb]
    have := congrArg List.reverse hl
    simpa using this

theorem paramsSplitAux_head {l a b : List Char} (hl : l = a ++ '/' :: b) :
    (paramsSplitAux l a b).1.head? = l.head? := by
  unfold paramsSplitAux
  cases hfc : firstCut [';'] b with
  | some q =>
    obtain ⟨b1, b2⟩ := q
    rw [hl]
    cases a with
    | nil => rfl
    | cons y ys => rfl
  | none => rfl

theorem paramsSplit_head (l : List Char) :
    (paramsSplit l).1 = [] ∨ (paramsSplit l).1.head? = l.head? := by
  unfold paramsSplit
  by_cases hocc : occursL [';'] l = true
  · rw [if_pos hocc]
    cases hls : lastSlashCut l with
    | some p =>
      obtain ⟨a, b⟩ := p
      exact Or.inr (paramsSplitAux_head (lastSlashCut_eq hls))
    | none =>
      cases hfc : firstCut [';'] l with
      | some q =>
        obtain ⟨l1, l2⟩ := q
        obtain ⟨hl, _⟩ := firstCut_single_eq hfc
        cases l1 with
        | nil => exact Or.inl rfl
        | cons y ys => exact Or.inr (by rw [hl]; rfl)
      | none => exact Or.inr rfl
  · rw [if_neg hocc]
    exact Or.inr rfl

theorem tailParse_path_inv {rest : List Char}
    (h : rest = [] ∨ rest.head? = some '/' ∨ rest.head? = some '?'
      ∨ rest.head? = some '#') :
    (tailParse rest).1 = [] ∨ (tailParse rest).1.head? = some '/' := by
  rcases h with rfl | hh | hh | hh
  · left
    rfl
  · rcases cutOr_head '#' rest with h3 | h3
    · left
      show (paramsSplit (cutOr '?' (cutOr '#' rest).1).1).1 = []
      rw [h3]
      rfl
    · rcases cutOr_head '?' (cutOr '#' rest).1 with h4 | h4
      · left
        show (paramsSplit (cutOr '?' (cutOr '#' rest).1).1).1 = []
        rw [h4]
        rfl
      · rcases paramsSplit_head (cutOr '?' (cutOr '#' rest).1).1 with h5 | h5
        · left
          exact h5
        · right
          show (paramsSplit (cutOr '?' (cutOr '#' rest).1).1).1.head? = some '/'
          rw [h5, h4, h3, hh]
  · rcases cutOr_head '#' rest with h3 | h3
    · left
      show (paramsSplit (cutOr '?' (cutOr '#' rest).1).1).1 = []
      rw [h3]
      rfl
    · have h4 : (cutOr '?' (cutOr '#' rest).1).1 = [] := cutOr_head_self (by rw [h3, hh])
      left
      show (paramsSplit (cutOr '?' (cutOr '#' rest).1).1).1 = []
      rw [h4]
      rfl
  · have h3 : (cutOr '#' rest).1 = [] := cutOr_head_self hh
    left
    show (paramsSplit (cutOr '?' (cutOr '#' rest).1).1).1 = []
    rw [h3]
    rfl

theorem dropWhile_head_false {p : Char → Bool} {l : List Char} {c : Char} {t : List Char}
    (h : l.dropWhile p = c :: t) : p c = false := by
  induction l with
  | nil => cases h
  | cons x xs ih =>
    by_cases hp : p x = true
    · rw [List.dropWhile_cons_of_pos hp] at h
      exact ih h
    · rw [List.dropWhile_cons_of_neg (by simpa using hp)] at h
      injection h with h1 h2
      subst h1
      simpa using hp

/-- When `urlparse` produces a hostname, the parsed path is empty or starts
with a slash. -/
theorem pyUrlparse_hostname_path {url : List Char} {u : UrlParts}
    (h : pyUrlparseE url = .ok u) (hh : (hostnameOf u.netloc).isSome = true) :
    u.path = [] ∨ u.path.head? = some '/' := by
  unfold pyUrlparseE at h
  by_cases hsl : startsWithL ['/', '/'] (splitScheme (urlClean url)).2 = true
  · rw [if_pos hsl] at h
    by_cases hbr : bracketMismatch (((splitScheme (urlClean url)).2.drop 2).takeWhile netChar)
        = true
    · rw [if_pos hbr] at h
      cases h
    · rw [if_neg hbr] at h
      injection h with h2
      rw [← h2]
      apply tailParse_path_inv
      cases hd : (((splitScheme (urlClean url)).2.drop 2).dropWhile netChar) with
      | nil => exact Or.inl rfl
      | cons c t =>
        have hc : netChar c = false := dropWhile_head_false hd
        unfold netChar at hc
        rw [Bool.not_eq_false'] at hc
        simp only [Bool.or_eq_true, decide_eq_true_eq] at hc
        have hc2 : c = '/' ∨ c = '?' ∨ c = '#' := by
          rcases hc with (h | h) | h
          · exact Or.inl h
          · exact Or.inr (Or.inl h)
          · exact Or.inr (Or.inr h)
        right
        rcases hc2 with rfl | rfl | rfl
        · exact Or.inl rfl
        · exact Or.inr (Or.inl rfl)
        · exact Or.inr (Or.inr rfl)
  · rw [if_neg hsl] at h
    injection h with h2
    rw [← h2] at hh
    simp [hostnameOf, afterLastAt, firstCut, occursL] at hh

/-- C10: `extract_video_id` returns the path without its leading slash for
`youtu.be` hosts, the first `'v'` query value (or `None` when absent) for
`youtube.com`/`www.youtube.com` hosts, and `None` for every other input,
including the caught `ValueError` paths; the embedding is total, so no
exception escapes. -/
theorem C10_extract_video_id_cases :
    ∀ (unq : String → String) (url : String),
      (∀ u, pyUrlparseE url.data = .ok u →
        (hostnameOf u.netloc = some "youtu.be" →
          (u.path = [] ∨ u.path.head? = some '/') ∧
          extract_video_id unq url = some (String.mk (stripLeadSlash u.path))) ∧
        ((hostnameOf u.netloc = some "www.youtube.com"
            ∨ hostnameOf u.netloc = some "youtube.com") →
          extract_video_id unq url
            = (((parse_qsl unq u.query).filter (fun kv => kv.1 = "v")).head?).map Prod.snd) ∧
        (hostnameOf u.netloc ≠ some "youtu.be" →
          hostnameOf u.netloc ≠ some "www.youtube.com" →
          hostnameOf u.netloc ≠ some "youtube.com" →
          extract_video_id unq url = none)) ∧
      ∀ e, pyUrlparseE url.data = .error e → extract_video_id unq url = none := by
  intro unq url
  constructor
  · intro u hu
    have hex : extract_video_id unq url
        = (match hostnameOf u.netloc with
           | some h =>
             if h = "youtu.be" then some (String.mk (u.path.drop 1))
             else if h = "www.youtube.com" ∨ h = "youtube.com" then
               match ((parse_qsl unq u.query).filter (fun kv => kv.1 = "v")).head? with
               | some kv => some kv.2
               | none => none
             else none
           | none => none) := by
      unfold extract_video_id
      rw [hu]
    refine ⟨?_, ?_, ?_⟩
    · intro hhost
      have hinv := pyUrlparse_hostname_path hu (by rw [hhost]; rfl)
      refine ⟨hinv, ?_⟩
      rcases hinv with hpe | hph
      · rw [hex, hhost, hpe]
        rfl
      · obtain ⟨c, t, hct⟩ : ∃ c t, u.path = c :: t := by
          cases hp : u.path with
          | nil => rw [hp] at hph; cases hph
          | cons c t => exact ⟨c, t, rfl⟩
        rw [hct] at hph
        injection hph with hc
        subst hc
        rw [hex, hhost, hct]
        rfl
    · intro hor
      cases hq : ((parse_qsl unq u.query).filter (fun kv => kv.1 = "v")).head? with
      | none =>
        rcases hor with hh | hh
        · rw [hex, hh, hq]
          rfl
        · rw [hex, hh, hq]
          rfl
      | some kv =>
        rcases hor with hh | hh
        · rw [hex, hh, hq]
          rfl
        · rw [hex, hh, hq]
          rfl
    · intro h1 h2 h3
      rw [hex]
      cases hh : hostnameOf u.netloc with
      | none => rfl
      | some h =>
        have e1 : ¬ (h = "youtu.be") := fun he => h1 (by rw [hh, he])
        have e2 : ¬ (h = "www.youtube.com") := fun he => h2 (by rw [hh, he])
        have e3 : ¬ (h = "youtube.com") := fun he => h3 (by rw [hh, he])
        simp [e1, e2, e3]
  · intro e he
    unfold extract_video_id
    rw [he]

/-- C10 witness: `C10_extract_video_id_cases` applied at a concrete short
URL. -/
theorem C10_extract_video_id_cases_witness :
    extract_video_id id "https://youtu.be/abc" = some "abc" := by
  have h := ((C10_extract_video_id_cases id "https://youtu.be/abc").1
    ⟨"https".data, "youtu.be".data, "/abc".data, [], [], []⟩ rfl).1 rfl
  exact h.2.trans (by rfl)

/-! ### Temp-file cleanup hooks (src/texttospeech.py lines 722-731,
src/speectottext.py lines 1085-1094)

Both scripts register an identical `atexit` hook that unlinks the single path
recorded in session state (`audio_file_path` / `uploaded_audio`) if it still
exists, swallowing deletion errors.  The scripts' temp-file lifecycle is
modelled as a state machine: the filesystem is the set of existing temp-file
paths, the session records at most one path, and `created` is the history of
every temp file ever created. -/

/-- The temp-file events of the two scripts.  `ttsGenerate` is a successful
speech generation (texttospeech.py line 269/323 create the file, line 505
records it, overwriting any previous record without deleting the old file);
`ttsClearAll` deletes the session key (line 529) without unlinking;
`sttUploadDirect` records an uploaded temp file as-is (speectottext.py line
163/165); `sttUploadConvert` creates an input temp file and a wav temp file,
unlinks the input (line 158), and records the wav (line 156/331). -/
inductive AudioEvent where
  | ttsGenerate (path : String)
  | ttsClearAll
  | sttUploadDirect (path : String)
  | sttUploadConvert (inp wav : String)

structure AudioState where
  files : List String
  recorded : Option String
  created : List String

/-- `os.unlink p` on the modelled filesystem. -/
def fsRemove (p : String) (fs : List String) : List String :=
  fs.filter (fun q => !(q = p))

def audioStep (s : AudioState) : AudioEvent → AudioState
  | .ttsGenerate p => ⟨p :: s.files, some p, p :: s.created⟩
  | .ttsClearAll => ⟨s.files, none, s.created⟩
  | .sttUploadDirect p => ⟨p :: s.files, some p, p :: s.created⟩
  | .sttUploadConvert i w => ⟨w :: fsRemove i (i :: s.files), some w, w :: i :: s.created⟩

def audioInit : AudioState := ⟨[], none, []⟩

def runAudio (es : List AudioEvent) : AudioState := es.foldl audioStep audioInit

/-- The `cleanup_temp_files` hook: if a path is recorded and the file exists,
try to unlink it; a failed unlink (`undeletable`) is swallowed. -/
def cleanup_temp_files (undeletable : List String) (s : AudioState) : AudioState :=
  match s.recorded with
  | some p =>
    if p ∈ s.files then
      (if p ∈ undeletable then s else ⟨fsRemove p s.files, s.recorded, s.created⟩)
    else s
  | none => s

/-- C7 counterexample.  Two successive generations record only the second
file; at exit the hook removes `b.mp3` but `a.mp3` — a temp audio file the
script created — is still on disk, so "every temporary audio file created is
deleted on process exit" is false. -/
theorem C7_counterexample :
    (cleanup_temp_files [] (runAudio [.ttsGenerate "a.mp3", .ttsGenerate "b.mp3"])).files
        = ["a.mp3"] ∧
    "a.mp3" ∈ (runAudio [.ttsGenerate "a.mp3", .ttsGenerate "b.mp3"]).created :=
  ⟨by decide, by decide⟩

theorem cleanup_recorded_some (u : List String) (s : AudioState) (p : String)
    (hrec : s.recorded = some p) :
    cleanup_temp_files u s
      = (if p ∈ s.files then
          (if p ∈ u then s else ⟨fsRemove p s.files, s.recorded, s.created⟩)
        else s) := by
  unfold cleanup_temp_files
  rw [hrec]

theorem cleanup_recorded_none (u : List String) (s : AudioState)
    (hrec : s.recorded = none) : cleanup_temp_files u s = s := by
  unfold cleanup_temp_files
  rw [hrec]

/-- C7, corrected.  The atexit hook deletes exactly the one file currently
recorded in session state — when it exists and the unlink succeeds — swallows
deletion errors, and touches nothing else; temp files superseded in (or
cleared from) session state before exit are not deleted by the hook. -/
theorem C7_cleanup_removes_recorded_only :
    ∀ (undeletable : List String) (es : List AudioEvent),
      (∀ p, (runAudio es).recorded = some p → p ∈ (runAudio es).files →
        p ∉ undeletable → p ∉ (cleanup_temp_files undeletable (runAudio es)).files) ∧
      (∀ q, q ∈ (runAudio es).files → (runAudio es).recorded ≠ some q →
        q ∈ (cleanup_temp_files undeletable (runAudio es)).files) ∧
      (∀ p, (runAudio es).recorded = some p → p ∈ undeletable →
        cleanup_temp_files undeletable (runAudio es) = runAudio es) ∧
      ((runAudio es).recorded = none →
        cleanup_temp_files undeletable (runAudio es) = runAudio es) ∧
      ∀ q, q ∈ (cleanup_temp_files undeletable (runAudio es)).files →
        q ∈ (runAudio es).files := by
  intro u es
  refine ⟨?_, ?_, ?_, ?_, ?_⟩
  · intro p hrec hmem hdel
    rw [cleanup_recorded_some u _ p hrec, if_pos hmem, if_neg hdel]
    intro hs
    have := List.of_mem_filter hs
    simp at this
  · intro q hmem hne
    cases hrec : (runAudio es).recorded with
    | none => rw [cleanup_recorded_none u _ hrec]; exact hmem
    | some p =>
      rw [cleanup_recorded_some u _ p hrec]
      by_cases hp : p ∈ (runAudio es).files
      · rw [if_pos hp]
        by_cases hu : p ∈ u
        · rw [if_pos hu]
          exact hmem
        · rw [if_neg hu]
          refine List.mem_filter.mpr ⟨hmem, ?_⟩
          have hqp : ¬ (q = p) := fun he => hne (by rw [hrec, he])
          simpa using hqp
      · rw [if_neg hp]
        exact hmem
  · intro p hrec hu
    rw [cleanup_recorded_some u _ p hrec]
    by_cases hp : p ∈ (runAudio es).files
    · rw [if_pos hp, if_pos hu]
    · rw [if_neg hp]
  · intro hrec
    exact cleanup_recorded_none u _ hrec
  · intro q hq
    cases hrec : (runAudio es).recorded with
    | none =>
      rw [cleanup_recorded_none u _ hrec] at hq
      exact hq
    | some p =>
      rw [cleanup_recorded_some u _ p hrec] at hq
      by_cases hp : p ∈ (runAudio es).files
      · rw [if_pos hp] at hq
        by_cases hu : p ∈ u
        · rw [if_pos hu] at hq
          exact hq
        · rw [if_neg hu] at hq
          exact List.mem_of_mem_filter hq
      · rw [if_neg hp] at hq
        exact hq

/-- C7 witness: `C7_cleanup_removes_recorded_only` applied at a concrete
two-generation trace: the recorded `b.mp3` is removed, the superseded
`a.mp3` survives. -/
theorem C7_cleanup_removes_recorded_only_witness :
    "b.mp3" ∉ (cleanup_temp_files []
        (runAudio [.ttsGenerate "a.mp3", .ttsGenerate "b.mp3"])).files ∧
    "a.mp3" ∈ (cleanup_temp_files []
        (runAudio [.ttsGenerate "a.mp3", .ttsGenerate "b.mp3"])).files :=
  ⟨(C7_cleanup_removes_recorded_only [] [.ttsGenerate "a.mp3", .ttsGenerate "b.mp3"]).1
      "b.mp3" (by decide) (by decide) (by decide),
    (C7_cleanup_removes_recorded_only [] [.ttsGenerate "a.mp3", .ttsGenerate "b.mp3"]).2.1
      "a.mp3" (by decide) (by decide)⟩

end MB
